import Mathlib

/-!
Shallow embedding of the sketch-based auto-scheduler search policy
(`sketch_search_policy.cc`) together with the loop-state data model it
manipulates.  Analyzer facts (strict inlinability, multi-level-tiling need,
output-ness, consumer relations) are computed by the external access analyzer
and are therefore carried as data on each stage; loop-state mutators and the
split-factorization memo are external to the exhibited core and are modelled
from the specification where the policy depends on their behaviour.
Fatal precondition violations (`CHECK` failures, out-of-range accesses,
modulo by zero on an empty candidate list) are modelled by `Option.none` /
`Except.error`.
-/

namespace AS

/-- Kind of an iterator: spatial (data-parallel) or reduction. -/
inductive IterKind
  | spatial
  | reduction
deriving DecidableEq, Repr, Inhabited

/-- Annotation carried by an iterator (source enum `IteratorAnnotation`). -/
inductive IterAnnot
  | none
  | parallel
  | vectorize
  | unroll
  | tensorize
deriving DecidableEq, Repr, Inhabited

/-- A loop iterator of a stage.  The extent is `Option.none` while unknown
(e.g. after a split with unfilled tile sizes, before `InferBound`). -/
structure Iterator where
  name : String
  extent : Option Nat
  kind : IterKind
  annot : IterAnnot
deriving DecidableEq, Repr, Inhabited

/-- Kind of a stage's operation (source enum `StageKind`). -/
inductive StageKind
  | placeholder
  | compute
deriving DecidableEq, Repr, Inhabited

/-- Compute location of a stage (source enum `ComputeAtKind`). -/
inductive ComputeAtKind
  | root
  | inlined
  | iter
deriving DecidableEq, Repr, Inhabited

/-- Per-operation scheduling record.  The boolean fields starting at
`isOutput` are the access-analyzer predicates and the operation attribute
tags the policy consults; the analyzer itself is an external pre-pass, so
its verdicts are carried as data. -/
structure Stage where
  opType : StageKind
  iters : List Iterator
  computeAt : ComputeAtKind
  numOriginalIters : Nat
  isOutput : Bool
  strictInlinable : Bool
  needsMultiLevelTiling : Bool
  fuseFactorableReduction : Bool
  singleEwmConsumer : Option Nat
  singleConsumer : Option Nat
  attrAlwaysComputeInline : Bool
  attrNoCacheWrite : Bool
  attrAlwaysUnroll : Option (List String)
  attrAlwaysUnrollInner : Option (List String)
deriving DecidableEq, Repr, Inhabited

/-- A transform step recorded in a state's history (source sum type
`TransformStep`).  `split` lengths may hold `Option.none` entries for tile
sizes to be filled later. -/
inductive Step
  | split (stageId iterId : Nat) (extent : Option Nat) (lengths : List (Option Nat))
      (innerToOuter : Bool)
  | fuse (stageId : Nat) (iterIds : List Nat)
  | reorder (stageId : Nat) (order : List Nat)
  | computeAt (stageId targetStageId targetIterId : Nat)
  | computeInline (stageId : Nat)
  | computeRoot (stageId : Nat)
  | cacheWrite (stageId : Nat) (scope : String)
  | rfactor (stageId iterId factorAxis : Nat)
  | annotate (stageId iterId : Nat) (ann : IterAnnot)
  | pragma (stageId iterId : Nat) (pragmaType : String)
deriving DecidableEq, Repr, Inhabited

/-- The two mutually inverse halves of the attachment map:
`stageToAttachIter : stage_id -> (target_stage_id, target_iter_id)` and
`iterToAttachedStages : (stage_id, iter_id) -> list of attached stages`. -/
structure AttachMap where
  stageToAttachIter : List (Nat × Nat × Nat)
  iterToAttachedStages : List ((Nat × Nat) × List Nat)
deriving DecidableEq, Repr, Inhabited

/-- Immutable schedule snapshot: stages, append-only transform history,
attachment map and the concreteness flag. -/
structure State where
  stages : List Stage
  transformSteps : List Step
  attachMap : AttachMap
  concrete : Bool
deriving DecidableEq, Repr, Inhabited

/-- Stages attached at a given (stage, iterator) position; the empty list
means the `iter_to_attached_stages` map has no entry there. -/
def AttachMap.attachedAt (m : AttachMap) (sid iterId : Nat) : List Nat :=
  (m.iterToAttachedStages.lookup (sid, iterId)).getD []

/-- Remove a stage from both halves of the attachment map. -/
def AttachMap.removeStage (m : AttachMap) (sid : Nat) : AttachMap :=
  { stageToAttachIter := m.stageToAttachIter.filter (fun e => !(e.1 == sid))
    iterToAttachedStages :=
      (m.iterToAttachedStages.map (fun e => (e.1, e.2.filter (fun x => !(x == sid))))).filter
        (fun e => !e.2.isEmpty) }

/-- Record that `sid` is attached at iterator `iterId` of `target`,
updating both halves of the map. -/
def AttachMap.setAttach (m : AttachMap) (sid target iterId : Nat) : AttachMap :=
  let m' := m.removeStage sid
  { stageToAttachIter := (sid, target, iterId) :: m'.stageToAttachIter
    iterToAttachedStages :=
      if (m'.iterToAttachedStages.lookup (target, iterId)).isSome then
        m'.iterToAttachedStages.map (fun e =>
          if e.1 == (target, iterId) then (e.1, e.2 ++ [sid]) else e)
      else ((target, iterId), [sid]) :: m'.iterToAttachedStages }

/-- The stage at index `i`, defaulting when out of range (a raw array access
in the source). -/
def State.stageAt (s : State) (i : Nat) : Stage := s.stages.getD i default

/-- Extent of an iterator; the source `GetExtent` aborts when the extent is
undefined, which callers model by propagating `Option.none`. -/
def getExtent (it : Iterator) : Option Nat := it.extent

/-- Whether the stage has a reduction iterator (source `HasReduceIter`). -/
def hasReduceIter (st : Stage) : Bool :=
  st.iters.any (fun i => i.kind == IterKind.reduction)

/-- Whether some iterator of the stage carries the given annotation
(source `HasAnnotatedIter`). -/
def hasAnnotatedIter (st : Stage) (a : IterAnnot) : Bool :=
  st.iters.any (fun i => i.annot == a)

/-- Modelled from the spec: a stage is tiled when its iterator count differs
from the operation's original axis count (source utility `IsTiled`, external
to the exhibited core). -/
def isTiled (st : Stage) : Bool := !(st.iters.length == st.numOriginalIters)

/-- Modelled from the spec: whether the state's history contains a
cache-write step for this stage (source utility `HasCacheWriteStage`,
external to the exhibited core). -/
def hasCacheWriteOn (s : State) (sid : Nat) : Bool :=
  s.transformSteps.any (fun stp =>
    match stp with
    | Step.cacheWrite sid' _ => sid' == sid
    | _ => false)

/-- `suffix` test on strings (source utility `StrEndsWith`). -/
def strEndsWith (s suf : String) : Bool := suf.data.isSuffixOf s.data

/-! ### Loop-state mutators

The loop-state implementation is external to the exhibited core; each
mutator below is modelled from the spec (section "Loop State and Transform
Steps"): it appends a step to the history and updates `stages` /
`attach_map`.  Precondition violations surface as `Option.none`. -/

/-- Modelled from the spec: `compute_inline` marks the stage inlined, moves
it out of any attachment and appends the step. -/
def State.compute_inline (s : State) (sid : Nat) : State :=
  { s with
    stages := s.stages.set sid { s.stageAt sid with computeAt := ComputeAtKind.inlined }
    attachMap := s.attachMap.removeStage sid
    transformSteps := s.transformSteps ++ [Step.computeInline sid] }

/-- Modelled from the spec: `compute_root` moves the stage to root, removes
any attachment and appends the step. -/
def State.compute_root (s : State) (sid : Nat) : State :=
  { s with
    stages := s.stages.set sid { s.stageAt sid with computeAt := ComputeAtKind.root }
    attachMap := s.attachMap.removeStage sid
    transformSteps := s.transformSteps ++ [Step.computeRoot sid] }

/-- Modelled from the spec: `compute_at` attaches the stage at the given
iterator of the target stage, updating both halves of the attach map. -/
def State.compute_at (s : State) (sid target : Nat) (it : Iterator) : State :=
  let tIdx := (s.stageAt target).iters.findIdx (fun x => x == it)
  { s with
    stages := s.stages.set sid { s.stageAt sid with computeAt := ComputeAtKind.iter }
    attachMap := s.attachMap.setAttach sid target tIdx
    transformSteps := s.transformSteps ++ [Step.computeAt sid target tIdx] }

/-- Ceiling division used for the outermost extent of a split. -/
def ceilDiv (a b : Nat) : Nat := (a + b - 1) / b

/-- The `lengths.length + 1` iterators replacing a split iterator: the
outermost absorbs the rounding, the others take the given lengths; an
unknown length yields an unknown extent. -/
def mkSplitIters (it : Iterator) (lengths : List (Option Nat)) : List Iterator :=
  let prodAll : Option Nat := lengths.foldr
    (fun l acc =>
      match l, acc with
      | some a, some b => some (a * b)
      | _, _ => Option.none) (some 1)
  let outerExt : Option Nat :=
    match it.extent, prodAll with
    | some e, some p => some (ceilDiv e p)
    | _, _ => Option.none
  ⟨it.name ++ ".0", outerExt, it.kind, IterAnnot.none⟩ ::
    List.zipWith (fun i l => ⟨it.name ++ "." ++ toString (i + 1), l, it.kind, IterAnnot.none⟩)
      (List.range lengths.length) lengths

/-- Modelled from the spec: `split` replaces the iterator with
`lengths.length + 1` new iterators and appends the step, returning the new
iterators.  Fails fatally when the iterator is not in the stage. -/
def State.split (s : State) (sid : Nat) (it : Iterator) (lengths : List (Option Nat)) :
    Option (State × List Iterator) :=
  match s.stages.get? sid with
  | Option.none => Option.none
  | some stage =>
    match stage.iters.findIdx? (fun x => x == it) with
    | Option.none => Option.none
    | some idx =>
      let newIters := mkSplitIters it lengths
      let iters' := stage.iters.take idx ++ newIters ++ stage.iters.drop (idx + 1)
      some ({ s with
              stages := s.stages.set sid { stage with iters := iters' }
              transformSteps := s.transformSteps ++ [Step.split sid idx it.extent lengths true] },
            newIters)

/-- Product of the extents of a list of iterators, unknown if any is. -/
def itersExtentProd (its : List Iterator) : Option Nat :=
  its.foldr
    (fun i acc =>
      match i.extent, acc with
      | some a, some b => some (a * b)
      | _, _ => Option.none) (some 1)

/-- Modelled from the spec: `fuse` replaces a contiguous run of iterators by
a single fused iterator (extent the product) and appends the step. -/
def State.fuse (s : State) (sid : Nat) (its : List Iterator) : Option (State × Iterator) :=
  match s.stages.get? sid with
  | Option.none => Option.none
  | some stage =>
    match its with
    | [] => Option.none
    | first :: _ =>
      match stage.iters.findIdx? (fun x => x == first) with
      | Option.none => Option.none
      | some idx =>
        if (stage.iters.drop idx).take its.length == its then
          let fused : Iterator :=
            { name := String.intercalate "@" (its.map (fun i => i.name))
              extent := itersExtentProd its
              kind := if its.any (fun i => i.kind == IterKind.reduction) then IterKind.reduction
                      else IterKind.spatial
              annot := IterAnnot.none }
          let iters' := stage.iters.take idx ++ [fused] ++ stage.iters.drop (idx + its.length)
          some ({ s with
                  stages := s.stages.set sid { stage with iters := iters' }
                  transformSteps := s.transformSteps ++
                    [Step.fuse sid (List.range' idx its.length)] },
                fused)
        else Option.none

/-- Modelled from the spec: `reorder` installs the given iterator order and
appends the step (the source checks it is a permutation; violating the
precondition is the caller's bug). -/
def State.reorder (s : State) (sid : Nat) (order : List Iterator) : State :=
  let stage := s.stageAt sid
  { s with
    stages := s.stages.set sid { stage with iters := order }
    transformSteps := s.transformSteps ++
      [Step.reorder sid (order.map (fun it => stage.iters.findIdx (fun x => x == it)))] }

/-- Modelled from the spec: set an annotation on the given iterator and
append the step.  Fails fatally when the iterator is not in the stage. -/
def State.annotateIter (s : State) (sid : Nat) (it : Iterator) (a : IterAnnot) : Option State :=
  match s.stages.get? sid with
  | Option.none => Option.none
  | some stage =>
    match stage.iters.findIdx? (fun x => x == it) with
    | Option.none => Option.none
    | some idx =>
      some { s with
             stages := s.stages.set sid
               { stage with iters := stage.iters.set idx { it with annot := a } }
             transformSteps := s.transformSteps ++ [Step.annotate sid idx a] }

/-- `parallel` annotation mutator. -/
def State.parallel (s : State) (sid : Nat) (it : Iterator) : Option State :=
  s.annotateIter sid it IterAnnot.parallel

/-- `vectorize` annotation mutator. -/
def State.vectorize (s : State) (sid : Nat) (it : Iterator) : Option State :=
  s.annotateIter sid it IterAnnot.vectorize

/-- `unroll` annotation mutator. -/
def State.unroll (s : State) (sid : Nat) (it : Iterator) : Option State :=
  s.annotateIter sid it IterAnnot.unroll

/-- Modelled from the spec: `pragma` records a pragma step on the given
iterator. -/
def State.pragma (s : State) (sid : Nat) (it : Iterator) (v : String) : Option State :=
  match s.stages.get? sid with
  | Option.none => Option.none
  | some stage =>
    match stage.iters.findIdx? (fun x => x == it) with
    | Option.none => Option.none
    | some idx =>
      some { s with transformSteps := s.transformSteps ++ [Step.pragma sid idx v] }

/-- Modelled from the spec: `cache_write` locally creates a new stage at the
given position (analysis flags cleared, since the cached op is unknown to
the analyzer) and appends the step. -/
def State.cache_write (s : State) (sid : Nat) (scope : String) : State :=
  let cacheStage : Stage :=
    { (default : Stage) with
      opType := StageKind.compute
      iters := (s.stageAt sid).iters.filter (fun i => i.kind == IterKind.spatial) }
  { s with
    stages := s.stages.insertIdx sid cacheStage
    transformSteps := s.transformSteps ++ [Step.cacheWrite sid scope] }

/-- Modelled from the spec: `rfactor` introduces an intermediate stage for
the factored reduction (inserted at the stage's position, factor iterator
placed at `factorAxis` among the spatial iterators), appends the step and
returns the new stage's id. -/
def State.rfactor (s : State) (sid : Nat) (it : Iterator) (factorAxis : Nat) : State × Nat :=
  let stage := s.stageAt sid
  let iterId := stage.iters.findIdx (fun x => x == it)
  let spatial := stage.iters.filter (fun i => i.kind == IterKind.spatial)
  let rfStage : Stage :=
    { (default : Stage) with
      opType := StageKind.compute
      iters := spatial.insertIdx factorAxis { it with kind := IterKind.spatial } }
  ({ s with
     stages := s.stages.insertIdx sid rfStage
     transformSteps := s.transformSteps ++ [Step.rfactor sid iterId factorAxis] },
   sid)

/-- Canonical form of a state used for the measured-state redundancy check:
the serialized transform-step history (the source `ToStr` prints exactly the
workload key, constant within one search, followed by the steps). -/
def State.toStr (s : State) : List Step := s.transformSteps

/-! ### Policy configuration and external collaborators -/

/-- A nonnegative fraction standing in for a double-valued parameter (exact
floating-point arithmetic is out of scope; the policy only ever truncates
the product of such a parameter with an integer). -/
structure Frac where
  num : Nat
  den : Nat
deriving DecidableEq, Repr, Inhabited

/-- `static_cast<int>(f * n)` for a nonnegative parameter fraction. -/
def Frac.scaleTrunc (f : Frac) (n : Nat) : Nat := f.num * n / f.den

/-- The policy parameters and hardware facts read through `GetIntParam` /
`GetDoubleParam` / `GetStringParam` during the search. -/
structure Params where
  epsGreedy : Frac
  evoPopulation : Nat
  useMeasuredFrac : Frac
  maxInnermostSplitFactor : Nat
  maxVectorizeSize : Nat
  disableChangeComputeLocation : Bool
  cpuStructure : List Char
  numCores : Nat
deriving DecidableEq, Repr, Inhabited

/-- External collaborators of the policy that live outside the exhibited
core: the multi-level-tiling and follow-tiling utilities and the tensor
expression backend's `InferBound` analysis.  `doMultiLevelTiling` also
returns the spatial split step ids the source collects through an output
parameter. -/
structure Ext where
  doMultiLevelTiling : State → Nat → List Char → State × List Nat
  followTiling : State → Nat → List Nat → Nat → State
  inferBound : State → State

/-- Errors of the search pipeline: exhausted loop fuel, a failed `CHECK`
on the result of the single-round search, or any other fatal error
(precondition violation / aborting `CHECK`). -/
inductive Err
  | outOfFuel
  | checkFail
  | fatal
deriving DecidableEq, Repr

/-! ### Sketch generation rules (source lines 97-297) -/

/-- Source `ShouldAlwaysBeInlined`: placeholders never; otherwise the stage
must not be an output, must have no reduction iterator, and must either be
tagged `always_compute_inline` or be strictly inlinable per the analyzer. -/
def shouldAlwaysBeInlined (s : State) (sid : Nat) : Bool :=
  let stage := s.stageAt sid
  if stage.opType == StageKind.placeholder then false
  else if !stage.isOutput && !hasReduceIter stage then
    stage.attrAlwaysComputeInline || stage.strictInlinable
  else false

/-- Result of a sketch rule's condition check (source `ConditionKind`). -/
inductive ConditionKind
  | kPass
  | kApply
  | kApplyAndSkipRest
deriving DecidableEq, Repr

/-- `RuleAlwaysInline::MeetCondition`. -/
def ruleAlwaysInlineMeet (s : State) (sid : Nat) : ConditionKind :=
  if shouldAlwaysBeInlined s sid then ConditionKind.kApplyAndSkipRest else ConditionKind.kPass

/-- `RuleAlwaysInline::Apply`: inline the stage, move to the next lower
stage id. -/
def ruleAlwaysInlineApply (s : State) (sid : Nat) : List (State × Int) :=
  [(s.compute_inline sid, (sid : Int) - 1)]

/-- `RuleSkipStage::MeetCondition`. -/
def ruleSkipStageMeet (_s : State) (_sid : Nat) : ConditionKind := ConditionKind.kApply

/-- `RuleSkipStage::Apply`. -/
def ruleSkipStageApply (s : State) (sid : Nat) : List (State × Int) :=
  [(s, (sid : Int) - 1)]

/-- `RuleMultiLevelTiling::MeetCondition`. -/
def ruleMultiLevelTilingMeet (s : State) (sid : Nat) : ConditionKind :=
  if (s.stageAt sid).needsMultiLevelTiling then ConditionKind.kApply else ConditionKind.kPass

/-- `RuleMultiLevelTiling::Apply`. -/
def ruleMultiLevelTilingApply (ext : Ext) (p : Params) (s : State) (sid : Nat) :
    List (State × Int) :=
  [((ext.doMultiLevelTiling s sid p.cpuStructure).1, (sid : Int) - 1)]

/-- Lower- or upper-case `s` in the structure string marks a spatial tile
level (the source compares `tolower` with `'s'`). -/
def charIsS (c : Char) : Bool := c == 's' || c == 'S'

/-- `RuleMultiLevelTilingWithFusion::MeetCondition`: the stage needs
multi-level tiling and has a single elementwise-matched consumer;
fusion is forced (skipping the remaining rules) for a stage that has a
cache-write stage. -/
def ruleMLTFusionMeet (s : State) (sid : Nat) : ConditionKind :=
  let stage := s.stageAt sid
  if stage.needsMultiLevelTiling && stage.singleEwmConsumer.isSome then
    if hasCacheWriteOn s sid then ConditionKind.kApplyAndSkipRest else ConditionKind.kApply
  else ConditionKind.kPass

/-- `RuleMultiLevelTilingWithFusion::Apply`: tile the stage, then for each
follow-tiling level in {1, 2} whose structure character is spatial,
follow-tile the consumer and compute_at the stage at the iterator closing
that level. -/
def ruleMLTFusionApply (ext : Ext) (p : Params) (s : State) (sid : Nat) :
    List (State × Int) :=
  let stage := s.stageAt sid
  let target := stage.singleEwmConsumer.getD 0
  let baseAndIds := ext.doMultiLevelTiling s sid p.cpuStructure
  let base := baseAndIds.1
  let ssids := baseAndIds.2
  [1, 2].foldl
    (fun acc level =>
      if !charIsS (p.cpuStructure.getD (level - 1) 'x') then acc
      else
        let tmp := ext.followTiling base target ssids level
        let tIter := (tmp.stageAt target).iters.getD (level * ssids.length - 1) default
        acc ++ [(tmp.compute_at sid target tIter, (sid : Int) - 1)]) []

/-- `RuleAddCacheWrite::MeetCondition`. -/
def ruleAddCacheWriteMeet (s : State) (sid : Nat) : ConditionKind :=
  let stage := s.stageAt sid
  if stage.attrNoCacheWrite then ConditionKind.kPass
  else if stage.needsMultiLevelTiling && !stage.singleEwmConsumer.isSome then
    ConditionKind.kApply
  else ConditionKind.kPass

/-- `RuleAddCacheWrite::Apply`: add the cache-write stage and stay at the
same stage id. -/
def ruleAddCacheWriteApply (s : State) (sid : Nat) : List (State × Int) :=
  [(s.cache_write sid "local", (sid : Int))]

/-- Modelled from the spec: `NeedsRfactor` (external utility) holds when the
op needs multi-level tiling and has a fuse-factorable reduction axis. -/
def needsRfactor (s : State) (sid : Nat) : Bool :=
  let stage := s.stageAt sid
  stage.needsMultiLevelTiling && stage.fuseFactorableReduction

/-- Modelled from the spec: `FuseAllReductionIterators` (external utility)
fuses all reduction iterators of the stage into one and returns the fused
iterator together with the spatial and original reduction iterators; fatal
when the stage has no reduction iterator. -/
def fuseAllReductionIterators (s : State) (sid : Nat) :
    Option (State × Iterator × List Iterator × List Iterator) :=
  match s.stages.get? sid with
  | Option.none => Option.none
  | some stage =>
    let space := stage.iters.filter (fun i => i.kind == IterKind.spatial)
    let reduce := stage.iters.filter (fun i => i.kind == IterKind.reduction)
    match reduce with
    | [] => Option.none
    | [r] => some (s, r, space, reduce)
    | _ =>
      match s.fuse sid reduce with
      | Option.none => Option.none
      | some (s2, fused) => some (s2, fused, space, reduce)

/-- `RuleAddRfactor::MeetCondition`: needs rfactor and has no cache-write
stage yet. -/
def ruleAddRfactorMeet (s : State) (sid : Nat) : ConditionKind :=
  if needsRfactor s sid && !hasCacheWriteOn s sid then ConditionKind.kApply
  else ConditionKind.kPass

/-- `RuleAddRfactor::Apply`: fuse all reduction iterators, split the fused
iterator by factor 1, and emit one rfactor variant per resulting iterator,
reordering the space iterator to innermost for the second. -/
def ruleAddRfactorApply (s : State) (sid : Nat) : Option (List (State × Int)) :=
  match fuseAllReductionIterators s sid with
  | Option.none => Option.none
  | some (base, fused, space, _reduce) =>
    match base.split sid fused [some 1] with
    | Option.none => Option.none
    | some (base2, splitRes) =>
      let factorAxis := space.length
      some (splitRes.map (fun spIt =>
        let tr := base2.rfactor sid spIt factorAxis
        let t := tr.1
        let rid := tr.2
        let t2 :=
          if spIt == splitRes.getD 1 default then
            let its := (t.stageAt rid).iters
            let newOrder :=
              ((List.range its.length).filterMap (fun i =>
                if i == factorAxis then Option.none else its.get? i)) ++
              [its.getD factorAxis default]
            t.reorder rid newOrder
          else t
        (t2, (rid : Int) - 1)))

/-- Tags for the six sketch rules, in the order the policy constructor
registers them (source lines 720-725). -/
inductive RuleTag
  | alwaysInline
  | addRfactor
  | addCacheWrite
  | mltFusion
  | mlt
  | skipStage
deriving DecidableEq, Repr

/-- The default CPU rule order. -/
def sketchRules : List RuleTag :=
  [RuleTag.alwaysInline, RuleTag.addRfactor, RuleTag.addCacheWrite,
   RuleTag.mltFusion, RuleTag.mlt, RuleTag.skipStage]

/-- Dispatch a rule's condition check. -/
def ruleMeet (s : State) (sid : Nat) : RuleTag → ConditionKind
  | RuleTag.alwaysInline => ruleAlwaysInlineMeet s sid
  | RuleTag.addRfactor => ruleAddRfactorMeet s sid
  | RuleTag.addCacheWrite => ruleAddCacheWriteMeet s sid
  | RuleTag.mltFusion => ruleMLTFusionMeet s sid
  | RuleTag.mlt => ruleMultiLevelTilingMeet s sid
  | RuleTag.skipStage => ruleSkipStageMeet s sid

/-- Dispatch a rule's application. -/
def ruleApply (ext : Ext) (p : Params) (s : State) (sid : Nat) :
    RuleTag → Option (List (State × Int))
  | RuleTag.alwaysInline => some (ruleAlwaysInlineApply s sid)
  | RuleTag.addRfactor => ruleAddRfactorApply s sid
  | RuleTag.addCacheWrite => some (ruleAddCacheWriteApply s sid)
  | RuleTag.mltFusion => some (ruleMLTFusionApply ext p s sid)
  | RuleTag.mlt => some (ruleMultiLevelTilingApply ext p s sid)
  | RuleTag.skipStage => some (ruleSkipStageApply s sid)

/-- Try all derivation rules on one (state, stage-id) pair, collecting the
derived pairs; `kApplyAndSkipRest` stops rule iteration. -/
def processRules (ext : Ext) (p : Params) (s : State) (sid : Nat) :
    List RuleTag → Option (List (State × Int))
  | [] => some []
  | r :: rest =>
    let cond := ruleMeet s sid r
    if cond == ConditionKind.kPass then processRules ext p s sid rest
    else
      match ruleApply ext p s sid r with
      | Option.none => Option.none
      | some pairs =>
        if cond == ConditionKind.kApplyAndSkipRest then some pairs
        else
          match processRules ext p s sid rest with
          | Option.none => Option.none
          | some more => some (pairs ++ more)

/-- Process one frontier of (state, working-stage-id) pairs: a pair whose
stage id dropped below zero is emitted, the others are expanded by the
rules.  Returns the next frontier and the emitted states, in order. -/
def processFrontier (ext : Ext) (p : Params) :
    List (State × Int) → Option (List (State × Int) × List State)
  | [] => some ([], [])
  | (s, sid) :: rest =>
    match processFrontier ext p rest with
    | Option.none => Option.none
    | some (nextBuf, emitted) =>
      if sid < 0 then some (nextBuf, s :: emitted)
      else
        match processRules ext p s sid.toNat sketchRules with
        | Option.none => Option.none
        | some pairs => some (pairs ++ nextBuf, emitted)

/-- One ping-pong round of the derivation enumeration followed by the next,
bounded by fuel.  The source keys the per-state working position in a map
hashed on object identity; pairing each state with its position is the
value-level equivalent. -/
def genLoop (ext : Ext) (p : Params) : Nat → List (State × Int) → List State →
    Except Err (List State)
  | 0, pnow, out => if pnow.isEmpty then Except.ok out else Except.error Err.outOfFuel
  | fuel + 1, pnow, out =>
    if pnow.isEmpty then Except.ok out
    else
      match processFrontier ext p pnow with
      | Option.none => Except.error Err.fatal
      | some (pnext, emitted) => genLoop ext p fuel pnext (out ++ emitted)

/-- One step of the rfactor hack: if step `i` is an rfactor, its predecessor
must be a split step, whose lengths are replaced by the single undefined
entry (`{NullOpt}` in the source); otherwise the steps are unchanged. -/
def rfactorHackAt (steps : List Step) (i : Nat) : Option (List Step) :=
  match steps.get? i with
  | some (Step.rfactor _ _ _) =>
    if i == 0 then Option.none
    else
      match steps.get? (i - 1) with
      | some (Step.split sid iid ext _ ito) =>
        some (steps.set (i - 1) (Step.split sid iid ext [Option.none] ito))
      | _ => Option.none
  | _ => some steps

/-- Process the rfactor hack for all step ids below `k`, in ascending order
as in the source loop. -/
def rfactorHackGo (steps : List Step) : Nat → Option (List Step)
  | 0 => some steps
  | k + 1 =>
    match rfactorHackGo steps k with
    | Option.none => Option.none
    | some st => rfactorHackAt st k

/-- The post-pass of `GenerateSketches` (source lines 895-916): rewrite the
split preceding every rfactor step to have its length undefined so the init
pass can sample it. -/
def rfactorHack (steps : List Step) : Option (List Step) :=
  rfactorHackGo steps steps.length

/-- Apply the rfactor post-pass to one emitted state. -/
def applyRfactorHack (s : State) : Except Err State :=
  match rfactorHack s.transformSteps with
  | some steps2 => Except.ok { s with transformSteps := steps2 }
  | Option.none => Except.error Err.fatal

/-- Map an `Except`-valued transformer over the emitted states, stopping at
the first fatal error. -/
def mapE (f : State → Except Err State) : List State → Except Err (List State)
  | [] => Except.ok []
  | s :: rest =>
    match f s with
    | Except.error e => Except.error e
    | Except.ok s2 =>
      match mapE f rest with
      | Except.error e => Except.error e
      | Except.ok l => Except.ok (s2 :: l)

/-- `SketchSearchPolicyNode::GenerateSketches`: rule-based enumeration from
the initial state over descending stage ids, then the rfactor post-pass on
every emitted state. -/
def generateSketches (ext : Ext) (p : Params) (fuel : Nat) (initState : State) :
    Except Err (List State) :=
  match genLoop ext p fuel [(initState, (initState.stages.length : Int) - 1)] [] with
  | Except.error e => Except.error e
  | Except.ok outs => mapE applyRfactorHack outs

/-! ### Init population rules (source lines 299-700) -/

/-- The policy's random generator, modelled as a prerecorded stream of draws
(defaulting to 0 when exhausted); `next` consumes one draw. -/
structure Rng where
  vals : List Nat
deriving DecidableEq, Repr, Inhabited

/-- Consume one random draw. -/
def Rng.next (r : Rng) : Nat × Rng := (r.vals.headD 0, ⟨r.vals.tail⟩)

/-- Result of an init rule (source `InitPopulationRule::ResultKind`). -/
inductive ResultKind
  | kValid
  | kInvalid
deriving DecidableEq, Repr

/-- The positive divisors of `n`. -/
def getFactors (n : Nat) : List Nat :=
  (List.range (n + 1)).filter (fun f => !(f == 0) && n % f == 0)

/-- All lists of `n` positive factors that successively divide the remaining
extent (the divisor-chain enumeration of the split memo). -/
def allChains : Nat → Nat → List (List Nat)
  | 0, _ => [[]]
  | n + 1, rem =>
    (getFactors rem).flatMap (fun f => (allChains n (rem / f)).map (fun c => f :: c))

/-- Modelled from the spec: the split-factorization memo enumerates all
schemes of `n` tile lengths for `extent` (which, together with the implicit
outermost part, factor `extent` into `n + 1` positive integers) whose
innermost factor is at most `maxInnermost` (source
`SplitFactorizationMemo::GetFactorizationSchemes`, external to the core). -/
def getFactorizationSchemes (extent n maxInnermost : Nat) : List (List Nat) :=
  (allChains n extent).filter (fun c => decide (c.getLastD 1 ≤ maxInnermost))

/-- Fill one step: split steps with some undefined length get their lengths
replaced by a randomly indexed factorization scheme; `CHECK(ps->extent)`
failing or an empty scheme list (modulo by zero) is fatal. -/
def fillTileSizeStep (p : Params) (rng : Rng) (stp : Step) : Option (Step × Rng) :=
  match stp with
  | Step.split sid iid ext lengths ito =>
    if lengths.all (fun l => l.isSome) then some (stp, rng)
    else
      match ext with
      | Option.none => Option.none
      | some e =>
        let cands := getFactorizationSchemes e lengths.length p.maxInnermostSplitFactor
        if cands.length == 0 then Option.none
        else
          let rr := rng.next
          let chosen := cands.getD (rr.1 % cands.length) []
          some (Step.split sid iid (some e) (chosen.map some) ito, rr.2)
  | _ => some (stp, rng)

/-- Scan the transformation history in order, filling tile sizes. -/
def fillTileSizeGo (p : Params) : Rng → List Step → Option (List Step × Rng)
  | rng, [] => some ([], rng)
  | rng, stp :: rest =>
    match fillTileSizeStep p rng stp with
    | Option.none => Option.none
    | some (stp2, rng2) =>
      match fillTileSizeGo p rng2 rest with
      | Option.none => Option.none
      | some (l, rng3) => some (stp2 :: l, rng3)

/-- `InitFillTileSize::Apply`: fill all undefined split lengths and mark the
state concrete. -/
def initFillTileSizeApply (p : Params) (s : State) (rng : Rng) :
    Option ((State × Rng) × ResultKind) :=
  match fillTileSizeGo p rng s.transformSteps with
  | Option.none => Option.none
  | some (steps2, rng2) =>
    some (({ s with transformSteps := steps2, concrete := true }, rng2), ResultKind.kValid)

/-- The fusible-iterator walk of `InitVectorization::Apply` (source lines
570-600), from innermost outward: stop at a position with attached stages,
at a reduction or annotated or always-unroll iterator, at the second
iterator of a tiled stage, or when the cumulative extent exceeds the
vectorization limit; an undefined extent is fatal. -/
def vecWalkGo (p : Params) (s : State) (sid : Nat) (stage : Stage) (unrollSet : List String) :
    Nat → Nat → Nat → Option Nat
  | 0, nf, _ => some nf
  | remaining + 1, nf, cum =>
    if nf < stage.iters.length then
      let iterId := stage.iters.length - 1 - nf
      if !(s.attachMap.attachedAt sid iterId).isEmpty then some nf
      else
        let it := stage.iters.getD iterId default
        if it.kind == IterKind.reduction || !(it.annot == IterAnnot.none) ||
            unrollSet.contains it.name then some nf
        else if isTiled stage && !(nf == 0) then some nf
        else
          match getExtent it with
          | Option.none => Option.none
          | some e =>
            let cum2 := cum * e
            if p.maxVectorizeSize < cum2 then some nf
            else vecWalkGo p s sid stage unrollSet remaining (nf + 1) cum2
    else some nf

/-- Per-stage body of `InitVectorization::Apply`: compute the number of
fusible innermost iterators, randomize it when above one, then vectorize
(fusing first when more than one iterator is chosen). -/
def vectorizeStage (p : Params) (s : State) (rng : Rng) (sid : Nat) : Option (State × Rng) :=
  let stage := s.stageAt sid
  if stage.computeAt == ComputeAtKind.inlined || stage.opType == StageKind.placeholder then
    some (s, rng)
  else if hasAnnotatedIter stage IterAnnot.tensorize then some (s, rng)
  else
    let unrollSet := stage.attrAlwaysUnroll.getD []
    match vecWalkGo p s sid stage unrollSet stage.iters.length 0 1 with
    | Option.none => Option.none
    | some nf0 =>
      let picked : Nat × Rng :=
        if 1 < nf0 then
          let rr := rng.next
          (1 + rr.1 % (nf0 - 1), rr.2)
        else (nf0, rng)
      let nf := picked.1
      let rng2 := picked.2
      if nf == 1 then
        match stage.iters.getLast? with
        | Option.none => Option.none
        | some lastIt =>
          match s.vectorize sid lastIt with
          | Option.none => Option.none
          | some s2 => some (s2, rng2)
      else if 1 < nf then
        let toFuse := stage.iters.drop (stage.iters.length - nf)
        match s.fuse sid toFuse with
        | Option.none => Option.none
        | some (s2, fusedIt) =>
          match s2.vectorize sid fusedIt with
          | Option.none => Option.none
          | some s3 => some (s3, rng2)
      else some (s, rng2)

/-- Fold a per-stage transformer over a list of stage ids, threading the
state and the random stream. -/
def foldStages (f : State → Rng → Nat → Option (State × Rng)) :
    List Nat → State → Rng → Option (State × Rng)
  | [], s, rng => some (s, rng)
  | sid :: rest, s, rng =>
    match f s rng sid with
    | Option.none => Option.none
    | some (s2, rng2) => foldStages f rest s2 rng2

/-- `InitVectorization::Apply` over all stages in ascending order. -/
def initVectorizationApply (p : Params) (s : State) (rng : Rng) :
    Option ((State × Rng) × ResultKind) :=
  match foldStages (vectorizeStage p) (List.range s.stages.length) s rng with
  | Option.none => Option.none
  | some sr => some (sr, ResultKind.kValid)

/-- First candidate-enumeration loop of `InitChangeComputeLocation::Apply`
(source lines 380-413): walk the consumer's iterators, stopping at an
untiled reduction, at a spatial iterator after a reduction, or at an
always-unroll iterator; skip extent-1 iterators and first-level iterators
of a target that is itself computed at another stage; a pushed candidate
with attached stages ends the walk. -/
def enumCandsA (s : State) (targetSid : Nat) (unrollSet : List String)
    (targetTiled targetCAOther : Bool) :
    List (Nat × Iterator) → Bool → Option (List (Nat × Nat))
  | [], _ => some []
  | (i, it) :: rest, visitedReduce =>
    let stopKind :=
      if it.kind == IterKind.reduction then !targetTiled
      else it.kind == IterKind.spatial && visitedReduce
    let visited2 := visitedReduce || it.kind == IterKind.reduction
    if stopKind then some []
    else if unrollSet.contains it.name then some []
    else
      match getExtent it with
      | Option.none => Option.none
      | some e =>
        if e == 1 then enumCandsA s targetSid unrollSet targetTiled targetCAOther rest visited2
        else if targetCAOther && it.kind == IterKind.spatial && strEndsWith it.name ".0" then
          enumCandsA s targetSid unrollSet targetTiled targetCAOther rest visited2
        else if (s.attachMap.attachedAt targetSid i).isEmpty then
          match enumCandsA s targetSid unrollSet targetTiled targetCAOther rest visited2 with
          | Option.none => Option.none
          | some cs => some ((targetSid, i) :: cs)
        else some [(targetSid, i)]

/-- Second candidate-enumeration loop (source lines 429-447) over the stage
the consumer itself is computed at: stop at reductions, at positions with
attached stages, and at always-unroll iterators; skip extent-1 iterators. -/
def enumCandsB (s : State) (ttSid : Nat) (unrollSet : List String) :
    List (Nat × Iterator) → Option (List (Nat × Nat))
  | [] => some []
  | (i, it) :: rest =>
    if it.kind == IterKind.reduction || !(s.attachMap.attachedAt ttSid i).isEmpty then some []
    else if unrollSet.contains it.name then some []
    else
      match getExtent it with
      | Option.none => Option.none
      | some e =>
        if e == 1 then enumCandsB s ttSid unrollSet rest
        else
          match enumCandsB s ttSid unrollSet rest with
          | Option.none => Option.none
          | some cs => some ((ttSid, i) :: cs)

/-- Per-stage body of `InitChangeComputeLocation::Apply` (source lines
349-467): enumerate candidate attachment points at the single consumer (and
at the consumer's own attach target), then choose uniformly among inline,
compute_root and the candidates. -/
def changeComputeLocStage (s : State) (rng : Rng) (sid : Nat) : Option (State × Rng) :=
  let stage := s.stageAt sid
  if stage.opType == StageKind.placeholder || stage.computeAt == ComputeAtKind.inlined then
    some (s, rng)
  else if isTiled stage || stage.needsMultiLevelTiling then some (s, rng)
  else
    match stage.singleConsumer with
    | Option.none => some (s, rng)
    | some targetSid =>
      match s.stages.get? targetSid with
      | Option.none => Option.none
      | some tStage =>
        let unrollSet := tStage.attrAlwaysUnroll.getD []
        let targetCAOther := tStage.computeAt == ComputeAtKind.iter
        let targetTiled := isTiled tStage
        match enumCandsA s targetSid unrollSet targetTiled targetCAOther
            tStage.iters.enum false with
        | Option.none => Option.none
        | some candsA =>
          let candsB? : Option (List (Nat × Nat)) :=
            if targetCAOther then
              match s.attachMap.stageToAttachIter.lookup targetSid with
              | Option.none => Option.none
              | some tt =>
                match s.stages.get? tt.1 with
                | Option.none => Option.none
                | some ttStage =>
                  enumCandsB s tt.1 (ttStage.attrAlwaysUnroll.getD []) ttStage.iters.enum
            else some []
          match candsB? with
          | Option.none => Option.none
          | some candsB =>
            let cands := candsA ++ candsB
            let rr := rng.next
            let choice := rr.1 % (cands.length + 2)
            if choice == 0 then
              if !hasReduceIter stage &&
                  (s.attachMap.stageToAttachIter.lookup sid).isSome then
                some (s.compute_inline sid, rr.2)
              else some (s, rr.2)
            else if choice == 1 then some (s.compute_root sid, rr.2)
            else
              let cand := cands.getD (choice - 2) (0, 0)
              match (s.stageAt cand.1).iters.get? cand.2 with
              | Option.none => Option.none
              | some it => some (s.compute_at sid cand.1 it, rr.2)

/-- `InitChangeComputeLocation::Apply`: early out when disabled; otherwise
process stages from the highest id down and finish with `InferBound`. -/
def initChangeComputeLocationApply (ext : Ext) (p : Params) (s : State) (rng : Rng) :
    Option ((State × Rng) × ResultKind) :=
  if p.disableChangeComputeLocation then some ((s, rng), ResultKind.kValid)
  else
    match foldStages (fun s2 rng2 sid => changeComputeLocStage s2 rng2 sid)
        (List.range s.stages.length).reverse s rng with
    | Option.none => Option.none
    | some (s2, rng2) => some ((ext.inferBound s2, rng2), ResultKind.kValid)

/-- The outer-iterator walk of `annotate_parallel` (source lines 490-509):
collect iterators to fuse until a reduction or annotated iterator, until
the parallel degree exceeds `16 * num_cores`, or until a position with
attached stages; returns the collected iterators, the degree and the
iterator id the walk stopped at. -/
def parWalkGo (p : Params) (s : State) (sid : Nat) (stage : Stage) :
    List Nat → List Iterator → Nat → Option (List Iterator × Nat × Nat)
  | [], toFuse, degree => some (toFuse, degree, stage.iters.length)
  | iterId :: rest, toFuse, degree =>
    match stage.iters.get? iterId with
    | Option.none => some (toFuse, degree, stage.iters.length)
    | some it =>
      if it.kind == IterKind.reduction || !(it.annot == IterAnnot.none) then
        some (toFuse, degree, iterId)
      else
        match getExtent it with
        | Option.none => Option.none
        | some e =>
          let toFuse2 := toFuse ++ [it]
          let degree2 := degree * e
          if p.numCores * 16 < degree2 then some (toFuse2, degree2, iterId)
          else if !(s.attachMap.attachedAt sid iterId).isEmpty then
            some (toFuse2, degree2, iterId)
          else parWalkGo p s sid stage rest toFuse2 degree2

/-- The recursive `annotate_parallel` lambda of `InitParallel::Apply`
(source lines 481-530), bounded by fuel: walk the outermost iterators; if
the parallel degree is 1 and the stop position has attached stages, recurse
into them and then past the position; finally fuse and parallelize the
collected iterators. -/
def annotateParallelGo (p : Params) : Nat → State → Nat → Nat → Option State
  | 0, _, _, _ => Option.none
  | fuel + 1, s, sid, iterOffset =>
    let stage := s.stageAt sid
    match parWalkGo p s sid stage
        (List.range' iterOffset (stage.iters.length - iterOffset)) [] 1 with
    | Option.none => Option.none
    | some (toFuse, degree, exitId) =>
      let afterRec : Option State :=
        if degree == 1 then
          match s.attachMap.attachedAt sid exitId with
          | [] => some s
          | attached =>
            let descended := attached.foldl
              (fun acc aSid =>
                match acc with
                | Option.none => Option.none
                | some st => annotateParallelGo p fuel st aSid 0)
              (some s)
            match descended with
            | Option.none => Option.none
            | some s2 => annotateParallelGo p fuel s2 sid (exitId + 1)
        else some s
      match afterRec with
      | Option.none => Option.none
      | some s3 =>
        match toFuse with
        | [] => some s3
        | [single] => s3.parallel sid single
        | _ =>
          match s3.fuse sid toFuse with
          | Option.none => Option.none
          | some (s4, fusedIt) => s4.parallel sid fusedIt

/-- `InitParallel::Apply`: annotate every root non-placeholder stage. -/
def initParallelApply (p : Params) (s : State) (rng : Rng) :
    Option ((State × Rng) × ResultKind) :=
  let fuel := (s.stages.length + 1) *
    (s.stages.foldl (fun a st => a + st.iters.length) 0 + 2)
  let res := foldStages
    (fun s2 rng2 sid =>
      let stage := s2.stageAt sid
      if !(stage.computeAt == ComputeAtKind.root) || stage.opType == StageKind.placeholder then
        some (s2, rng2)
      else
        match annotateParallelGo p fuel s2 sid 0 with
        | Option.none => Option.none
        | some s3 => some (s3, rng2))
    (List.range s.stages.length) s rng
  match res with
  | Option.none => Option.none
  | some sr => some (sr, ResultKind.kValid)

/-- Modelled from the spec: the original iterator names hidden in a derived
iterator name — the components joined by `@` on fusing, each stripped of
its `.k` split suffix (source utility `ExtractOriginalIterators`, external
to the core); duplicates removed in order. -/
def extractOriginalIters (name : String) : List String :=
  ((name.splitOn "@").map (fun comp => (comp.splitOn ".").headD comp)).foldl
    (fun acc n => if acc.contains n then acc else acc ++ [n]) []

/-- Insert names into the visited set, preserving order. -/
def insertNames (visited names : List String) : List String :=
  names.foldl (fun acc n => if acc.contains n then acc else acc ++ [n]) visited

/-- The innermost-tile walk for the `always_unroll_inner` attribute (source
lines 640-663): iterate from innermost outward until an iterator introduces
no new original name; unroll unannotated iterators whose single original
name is listed. -/
def unrollInnerGo (sid : Nat) (unrollSet : List String) :
    List Iterator → List String → State → Option State
  | [], _, st => some st
  | it :: rest, visited, st =>
    let names := extractOriginalIters it.name
    if names.all (fun n => visited.contains n) then some st
    else
      let visited2 := insertNames visited names
      let st2? :=
        if names.length == 1 && unrollSet.contains (names.headD "") &&
            it.annot == IterAnnot.none then st.unroll sid it
        else some st
      match st2? with
      | Option.none => Option.none
      | some st2 => unrollInnerGo sid unrollSet rest visited2 st2

/-- The walk for the `always_unroll` attribute (source lines 672-679):
unroll every listed iterator, innermost first. -/
def unrollListGo (sid : Nat) (unrollSet : List String) :
    List Iterator → State → Option State
  | [], st => some st
  | it :: rest, st =>
    let st2? := if unrollSet.contains it.name then st.unroll sid it else some st
    match st2? with
    | Option.none => Option.none
    | some st2 => unrollListGo sid unrollSet rest st2

/-- Per-stage body of `InitUnroll::Apply` (source lines 624-690). -/
def unrollStage (s : State) (rng : Rng) (sid : Nat) : Option (State × Rng) :=
  let stage := s.stageAt sid
  if stage.computeAt == ComputeAtKind.inlined || stage.opType == StageKind.placeholder then
    some (s, rng)
  else
    let afterInner? :=
      match stage.attrAlwaysUnrollInner with
      | Option.none => some s
      | some unrollSet => unrollInnerGo sid unrollSet stage.iters.reverse [] s
    match afterInner? with
    | Option.none => Option.none
    | some s1 =>
      let afterList? :=
        match stage.attrAlwaysUnroll with
        | Option.none => some s1
        | some unrollSet => unrollListGo sid unrollSet stage.iters.reverse s1
      match afterList? with
      | Option.none => Option.none
      | some s2 =>
        if hasReduceIter stage then
          let rr := rng.next
          let v := [0, 16, 64, 512].getD (rr.1 % 4) 0
          match (s2.stageAt sid).iters.get? 0 with
          | Option.none => Option.none
          | some it0 =>
            match s2.pragma sid it0 ("auto_unroll_max_step" ++ "$" ++ toString v) with
            | Option.none => Option.none
            | some s3 => some (s3, rr.2)
        else some (s2, rng)

/-- `InitUnroll::Apply` over all stages in ascending order. -/
def initUnrollApply (s : State) (rng : Rng) : Option ((State × Rng) × ResultKind) :=
  match foldStages unrollStage (List.range s.stages.length) s rng with
  | Option.none => Option.none
  | some sr => some (sr, ResultKind.kValid)

/-- Sequence two init-rule results, short-circuiting on `kInvalid` and on
fatal errors. -/
def runInitRule (res : Option ((State × Rng) × ResultKind))
    (next : State → Rng → Option ((State × Rng) × ResultKind)) :
    Option ((State × Rng) × ResultKind) :=
  match res with
  | Option.none => Option.none
  | some (sr, ResultKind.kInvalid) => some (sr, ResultKind.kInvalid)
  | some ((s, rng), ResultKind.kValid) => next s rng

/-- Apply the five default init rules in registration order (source lines
728-732): fill tile size, change compute location, parallel, vectorization,
unroll. -/
def applyInitRules (ext : Ext) (p : Params) (s : State) (rng : Rng) :
    Option ((State × Rng) × ResultKind) :=
  runInitRule
    (runInitRule
      (runInitRule
        (runInitRule (initFillTileSizeApply p s rng)
          (initChangeComputeLocationApply ext p))
        (initParallelApply p))
      (initVectorizationApply p))
    initUnrollApply

/-- `SketchSearchPolicyNode::SampleInitPopulation` (source lines 922-956):
draw random sketches and run the init rules until `out_size` states were
produced or `out_size` samples failed. -/
def sampleInitPopulation (ext : Ext) (p : Params) :
    Nat → List State → Nat → Rng → List State → Nat → Option (List State × Nat × Rng)
  | 0, _, _, _, _, _ => Option.none
  | fuel + 1, sketches, outSize, rng, out, failCt =>
    if out.length < outSize && failCt < outSize then
      if sketches.isEmpty then Option.none
      else
        let rr := rng.next
        let tmp := sketches.getD (rr.1 % sketches.length) default
        match applyInitRules ext p tmp rr.2 with
        | Option.none => Option.none
        | some ((s2, rng2), ResultKind.kValid) =>
          sampleInitPopulation ext p fuel sketches outSize rng2 (out ++ [s2]) failCt
        | some ((_, rng2), ResultKind.kInvalid) =>
          sampleInitPopulation ext p fuel sketches outSize rng2 out (failCt + 1)
    else some (out, failCt, rng)

/-! ### Search policy outer loop (source lines 702-1020) -/

/-- Modelled from the spec: indices of the measured throughputs sorted best
first (source utility `Argsort`, external to the core; the policy takes the
top entries as the best previously measured states). -/
def argsortDesc (l : List Rat) : List Nat :=
  (List.range l.length).insertionSort (fun i j => l.getD j 0 ≤ l.getD i 0)

/-- Modelled from the spec: draw `n` uniform random states from the
population (source utility `RandomSampleStates`, external to the core);
fatal on an empty population when at least one draw is needed. -/
def randomSampleStates : List State → Rng → Nat → Option (List State × Rng)
  | _, rng, 0 => some ([], rng)
  | pop, rng, n + 1 =>
    if pop.isEmpty then Option.none
    else
      let rr := rng.next
      match randomSampleStates pop rr.2 n with
      | Option.none => Option.none
      | some (l, rng2) => some (pop.getD (rr.1 % pop.length) default :: l, rng2)

/-- `SketchSearchPolicyNode::EvolutionarySearch` (source lines 958-973): the
implementation is deleted pending the cost-model port, so the returned
best-states array is always empty. -/
def evolutionarySearch (_initPopulations : List State) (_outSize : Nat) : List State := []

/-- The mutable fields of `SketchSearchPolicyNode` threaded through the
search, together with the search task's initial state and the cost-model
kind test `IsInstance<RandomModelNode>`. -/
structure Policy where
  params : Params
  costModelIsRandom : Bool
  initState : State
  numMeasurePerIter : Nat
  rng : Rng
  measuredSet : List (List Step)
  measuredVec : List State
  measuredThroughputs : List Rat

/-- Result of one search round: the promising states, the extra random
states for the epsilon-greedy mix, and the updated policy. -/
structure RoundResult where
  bestStates : List State
  randomStates : List State
  policy : Policy

/-- `SketchSearchPolicyNode::SearchOneRound` (source lines 804-847):
generate sketches, sample the init population, then either run the
(stubbed) evolutionary search over the population extended with the best
measured states — when the cost model is informative — or sample
`3 * num_measure_per_iter` random states as the best list. -/
def searchOneRound (ext : Ext) (fuel : Nat) (pol : Policy) (numRandomStates : Nat) :
    Except Err RoundResult :=
  let population := pol.params.evoPopulation
  let numUseMeasured := min pol.measuredVec.length
    (pol.params.useMeasuredFrac.scaleTrunc population)
  let isReasonable := !pol.costModelIsRandom
  match generateSketches ext pol.params fuel pol.initState with
  | Except.error e => Except.error e
  | Except.ok sketches =>
    let outSize := if isReasonable then population - numUseMeasured else population
    match sampleInitPopulation ext pol.params (2 * outSize + 1) sketches outSize
        pol.rng [] 0 with
    | Option.none => Except.error Err.fatal
    | some (initPop, _failCt, rng1) =>
      if isReasonable then
        let indices := argsortDesc pol.measuredThroughputs
        let initPop2 := initPop ++
          (indices.take numUseMeasured).map (fun i => pol.measuredVec.getD i default)
        let best := evolutionarySearch initPop2 (pol.numMeasurePerIter * 2)
        match randomSampleStates initPop2 rng1 (numRandomStates * 10) with
        | Option.none => Except.error Err.fatal
        | some (rand, rng2) =>
          Except.ok ⟨best, rand, { pol with rng := rng2 }⟩
      else
        match randomSampleStates initPop rng1 (pol.numMeasurePerIter * 3) with
        | Option.none => Except.error Err.fatal
        | some (best, rng2) => Except.ok ⟨best, [], { pol with rng := rng2 }⟩

/-- The selection loop of `PickStatesWithEpsGreedy` (source lines 984-1017):
until the per-iteration cap or the remaining trial budget is reached, pop
from the best list while fewer than `num_good` inputs were taken and from
the random list afterwards (falling back to the other list when one is
exhausted); a state whose canonical form is already in the measured set is
dropped, any other is recorded in the set, the measured vector and the
output. -/
def pickLoop (numMeasure numGood remaining : Nat) :
    Nat → List State → List State → List State → List (List Step) → List State →
    List State × List (List Step) × List State
  | 0, _, _, inputs, set, vec => (inputs, set, vec)
  | fuel + 1, best, random, inputs, set, vec =>
    if inputs.length < min numMeasure remaining then
      let consume := fun (st : State) (best2 random2 : List State) =>
        let key := st.toStr
        if set.contains key then
          pickLoop numMeasure numGood remaining fuel best2 random2 inputs set vec
        else
          pickLoop numMeasure numGood remaining fuel best2 random2
            (inputs ++ [st]) (set ++ [key]) (vec ++ [st])
      if inputs.length < numGood then
        match best with
        | st :: rest => consume st rest random
        | [] =>
          match random with
          | st :: rest => consume st [] rest
          | [] => (inputs, set, vec)
      else
        match random with
        | st :: rest => consume st best rest
        | [] =>
          match best with
          | st :: rest => consume st rest []
          | [] => (inputs, set, vec)
    else (inputs, set, vec)

/-- `SketchSearchPolicyNode::PickStatesWithEpsGreedy` (source lines
975-1020); returns the picked inputs together with the updated measured
set and vector. -/
def pickStatesWithEpsGreedy (p : Params) (nmpi : Nat) (best random : List State)
    (remaining : Nat) (set : List (List Step)) (vec : List State) :
    List State × List (List Step) × List State :=
  let numRandom := p.epsGreedy.scaleTrunc nmpi
  let numGood := nmpi - numRandom
  pickLoop nmpi numGood remaining (best.length + random.length + 1) best random [] set vec

/-- Observable events of one `Search` call: a `SearchOneRound` invocation
with its `num_random` argument, a cost-model update, or a measurement batch
of the given size. -/
inductive Event
  | roundCall (numRandom : Nat)
  | updateModel
  | measureBatch (n : Nat)
deriving DecidableEq, Repr

/-- The measurer's externally visible state: the trial count at which the
best state was found and the best state per workload. -/
structure MeasurerSt where
  bestCt : Nat
  bestState : Option State
deriving DecidableEq, Repr

/-- The external program measurer: a transition function producing the cost
arrays for a batch and the updated measurer state, plus the state installed
by `Reset`. -/
structure Measurer where
  run : MeasurerSt → List State → List (List Rat) × MeasurerSt
  resetSt : MeasurerSt

/-- Mean of a cost array (source `FloatArrayMean`). -/
def ratMean (l : List Rat) : Rat := l.sum / l.length

/-- The measurement loop of `Search` for `n_trials > 1` (source lines
756-797), bounded by fuel; returns the result together with the emitted
events. -/
def searchLoop (ext : Ext) (roundFuel : Nat) (meas : Measurer)
    (nTrials earlyStopping : Int) (numRandom : Nat) :
    Nat → Policy → MeasurerSt → Int → List State → List Event →
    Except Err State × List Event
  | 0, _, _, _, _, events => (Except.error Err.outOfFuel, events)
  | fuel + 1, pol, mst, ct, lastInputs, events =>
    if ct < nTrials then
      let events1 := if lastInputs.isEmpty then events else events ++ [Event.updateModel]
      let events2 := events1 ++ [Event.roundCall numRandom]
      match searchOneRound ext roundFuel pol numRandom with
      | Except.error e => (Except.error e, events2)
      | Except.ok r =>
        let best := r.bestStates.map ext.inferBound
        let rand := r.randomStates.map ext.inferBound
        let picked := pickStatesWithEpsGreedy r.policy.params r.policy.numMeasurePerIter
          best rand (nTrials - ct).toNat r.policy.measuredSet r.policy.measuredVec
        let inputs := picked.1
        let pol2 := { r.policy with measuredSet := picked.2.1, measuredVec := picked.2.2 }
        if inputs.isEmpty then
          (match mst.bestState with
           | some st => Except.ok st
           | Option.none => Except.error Err.fatal, events2)
        else
          let mrun := meas.run mst inputs
          let results := mrun.1
          let mst2 := mrun.2
          let events3 := events2 ++ [Event.measureBatch inputs.length]
          let ct2 := ct + inputs.length
          if earlyStopping < ct2 - (mst2.bestCt : Int) then
            (match mst2.bestState with
             | some st => Except.ok st
             | Option.none => Except.error Err.fatal, events3)
          else
            let pol3 := { pol2 with
              measuredThroughputs := pol2.measuredThroughputs ++
                results.map (fun costs => 1 / ratMean costs) }
            searchLoop ext roundFuel meas nTrials earlyStopping numRandom
              fuel pol3 mst2 ct2 inputs events3
    else
      (match mst.bestState with
       | some st => Except.ok st
       | Option.none => Except.error Err.fatal, events)

/-- `SketchSearchPolicyNode::Search` (source lines 737-801): for
`n_trials <= 1` run a single `SearchOneRound(0)` and return its first state
(the source `CHECK_GT` fails on an empty result list); otherwise run the
measurement loop. -/
def search (ext : Ext) (roundFuel loopFuel : Nat) (meas : Measurer) (pol : Policy)
    (nTrials earlyStopping : Int) (nmpi : Nat) : Except Err State × List Event :=
  let pol := { pol with numMeasurePerIter := nmpi }
  if nTrials ≤ 1 then
    match searchOneRound ext roundFuel pol 0 with
    | Except.error e => (Except.error e, [Event.roundCall 0])
    | Except.ok r =>
      match r.bestStates with
      | [] => (Except.error Err.checkFail, [Event.roundCall 0])
      | st :: _ => (Except.ok st, [Event.roundCall 0])
  else
    let numRandom := pol.params.epsGreedy.scaleTrunc nmpi
    let es : Int := if earlyStopping < 0 then 2 ^ 30 - 1 else earlyStopping
    searchLoop ext roundFuel meas nTrials es numRandom loopFuel pol meas.resetSt 0 [] []

/-- Whether an `Except` result is a success. -/
def isOkE {α : Type} (e : Except Err α) : Bool :=
  match e with
  | Except.ok _ => true
  | Except.error _ => false

/-- The success payload of an `Except`-valued state list, empty on error. -/
def okList (e : Except Err (List State)) : List State :=
  match e with
  | Except.ok l => l
  | Except.error _ => []

/-! ### Concrete fixtures used by witnesses and counterexamples -/

/-- Trivial instances of the external collaborators. -/
def extW : Ext :=
  { doMultiLevelTiling := fun s _ _ => (s, [])
    followTiling := fun s _ _ _ => s
    inferBound := id }

/-- A single spatial iterator of extent 4. -/
def iterW : Iterator :=
  { name := "i0", extent := some 4, kind := IterKind.spatial, annot := IterAnnot.none }

/-- A one-iterator output compute stage with all analyzer flags off. -/
def stageW : Stage :=
  { opType := StageKind.compute, iters := [iterW], computeAt := ComputeAtKind.root
    numOriginalIters := 1, isOutput := true, strictInlinable := false
    needsMultiLevelTiling := false, fuseFactorableReduction := false
    singleEwmConsumer := Option.none, singleConsumer := Option.none
    attrAlwaysComputeInline := false, attrNoCacheWrite := false
    attrAlwaysUnroll := Option.none, attrAlwaysUnrollInner := Option.none }

/-- A one-stage initial state. -/
def stateW : State :=
  { stages := [stageW], transformSteps := [], attachMap := ⟨[], []⟩, concrete := false }

/-- A small concrete parameter set. -/
def paramsW : Params :=
  { epsGreedy := ⟨0, 1⟩, evoPopulation := 1, useMeasuredFrac := ⟨0, 1⟩
    maxInnermostSplitFactor := 16, maxVectorizeSize := 16
    disableChangeComputeLocation := true
    cpuStructure := ['S', 'S', 'R', 'S', 'R', 'S'], numCores := 1 }

/-- A fresh policy over `stateW` with the random cost model. -/
def polW : Policy :=
  { params := paramsW, costModelIsRandom := true, initState := stateW
    numMeasurePerIter := 1, rng := ⟨[]⟩, measuredSet := [], measuredVec := []
    measuredThroughputs := [] }

/-- The same policy with an informative (non-random) cost model. -/
def polW2 : Policy := { polW with costModelIsRandom := false }

/-- A measurer that reports no results and never finds a best state. -/
def measW : Measurer := { run := fun mst _ => ([], mst), resetSt := ⟨0, Option.none⟩ }

/-- A spatial iterator of extent 4 for the rfactor fixture. -/
def iterS0 : Iterator :=
  { name := "s0", extent := some 4, kind := IterKind.spatial, annot := IterAnnot.none }

/-- A reduction iterator of extent 8 for the rfactor fixture. -/
def iterR0 : Iterator :=
  { name := "r0", extent := some 8, kind := IterKind.reduction, annot := IterAnnot.none }

/-- A matmul-like stage that needs multi-level tiling and rfactor. -/
def stageR : Stage :=
  { stageW with
    iters := [iterS0, iterR0], numOriginalIters := 2
    needsMultiLevelTiling := true, fuseFactorableReduction := true }

/-- A one-stage initial state over `stageR`. -/
def stateR : State :=
  { stages := [stageR], transformSteps := [], attachMap := ⟨[], []⟩, concrete := false }

/-! ### Claim C5: the AlwaysInline rule -/

/-- The AlwaysInline firing condition as the claim words it: the op is
strict-inlinable, is not an output, has no reduction iterator, and either
carries the `always_compute_inline` tag or the analyzer confirms strict
inlinability. -/
def claimAlwaysInlineCond (s : State) (sid : Nat) : Bool :=
  let stage := s.stageAt sid
  stage.strictInlinable && !stage.isOutput && !hasReduceIter stage &&
    (stage.attrAlwaysComputeInline || stage.strictInlinable)

/-- A non-placeholder, non-output, reduction-free stage that carries the
`always_compute_inline` tag but is not strict-inlinable per the analyzer. -/
def cexInlineStage : Stage :=
  { stageW with isOutput := false, attrAlwaysComputeInline := true }

/-- State around `cexInlineStage`. -/
def cexInlineState : State :=
  { stages := [cexInlineStage], transformSteps := [], attachMap := ⟨[], []⟩, concrete := false }

/-- Boolean characterization of `ShouldAlwaysBeInlined`. -/
theorem shouldAlwaysBeInlined_eq (s : State) (sid : Nat) :
    shouldAlwaysBeInlined s sid =
      (!((s.stageAt sid).opType == StageKind.placeholder) && (!(s.stageAt sid).isOutput &&
        (!hasReduceIter (s.stageAt sid) &&
        ((s.stageAt sid).attrAlwaysComputeInline || (s.stageAt sid).strictInlinable)))) := by
  unfold shouldAlwaysBeInlined
  cases h1 : (s.stageAt sid).opType == StageKind.placeholder <;>
    cases h2 : (s.stageAt sid).isOutput <;>
      cases h3 : hasReduceIter (s.stageAt sid) <;>
        simp [h1, h2, h3]

/-- C5 (counterexample): on a stage that merely carries the
`always_compute_inline` tag and is not strict-inlinable, the rule fires
although the claimed condition (which requires strict inlinability) is
false. -/
theorem c5_always_inline_counterexample :
    ruleAlwaysInlineMeet cexInlineState 0 = ConditionKind.kApplyAndSkipRest ∧
    claimAlwaysInlineCond cexInlineState 0 = false := by
  constructor <;> rfl

/-- C5 (amended): the AlwaysInline rule fires — returning apply-and-skip-rest
and emitting `compute_inline` on the stage, moving to `stage_id - 1` —
exactly when the stage is not a placeholder, its op is not an output, has no
reduction iterator, and either carries the `always_compute_inline` tag or
the analyzer confirms strict inlinability. -/
theorem c5_always_inline_amended :
    ∀ (s : State) (sid : Nat),
      (ruleAlwaysInlineMeet s sid = ConditionKind.kApplyAndSkipRest ↔
        (¬ (s.stageAt sid).opType = StageKind.placeholder ∧
         (s.stageAt sid).isOutput = false ∧ hasReduceIter (s.stageAt sid) = false ∧
         ((s.stageAt sid).attrAlwaysComputeInline = true ∨
          (s.stageAt sid).strictInlinable = true))) ∧
      (ruleAlwaysInlineMeet s sid = ConditionKind.kApplyAndSkipRest ∨
       ruleAlwaysInlineMeet s sid = ConditionKind.kPass) ∧
      ruleAlwaysInlineApply s sid = [(s.compute_inline sid, (sid : Int) - 1)] := by
  intro s sid
  refine ⟨?_, ?_, rfl⟩
  · unfold ruleAlwaysInlineMeet
    rw [shouldAlwaysBeInlined_eq]
    cases h1 : (s.stageAt sid).opType <;>
      cases h2 : (s.stageAt sid).isOutput <;>
        cases h3 : hasReduceIter (s.stageAt sid) <;>
          cases h4 : (s.stageAt sid).attrAlwaysComputeInline <;>
            cases h5 : (s.stageAt sid).strictInlinable <;>
              simp [h1, h2, h3, h4, h5]
  · unfold ruleAlwaysInlineMeet
    cases shouldAlwaysBeInlined s sid <;> simp

/-! ### Claim C6: the MultiLevelTilingWithFusion rule -/

/-- The successor state the fusion rule produces for one follow-tiling
level: the fully tiled stage, a follow-tiling of the consumer at that
level, and a `compute_at` of the stage into the consumer at the iterator
closing the level. -/
def mltFusionVariant (ext : Ext) (p : Params) (s : State) (sid : Nat) (level : Nat) :
    State × Int :=
  let stage := s.stageAt sid
  let target := stage.singleEwmConsumer.getD 0
  let baseAndIds := ext.doMultiLevelTiling s sid p.cpuStructure
  let tmp := ext.followTiling baseAndIds.1 target baseAndIds.2 level
  let tIter := (tmp.stageAt target).iters.getD (level * baseAndIds.2.length - 1) default
  (tmp.compute_at sid target tIter, (sid : Int) - 1)

/-- C6: the MultiLevelTilingWithFusion rule applies exactly when the stage
needs multi-level tiling and has exactly one elementwise-matched consumer;
it returns apply-and-skip-rest iff the stage additionally has a cache-write
stage; applied, it emits one successor per level in {1, 2} whose
structure-string character is spatial, each being the multi-level tile, a
follow-tiling of the consumer at that level and a `compute_at` into the
consumer at that level's iterator. -/
theorem c6_mlt_fusion_rule :
    (∀ (s : State) (sid : Nat),
      (¬ ruleMLTFusionMeet s sid = ConditionKind.kPass ↔
        ((s.stageAt sid).needsMultiLevelTiling = true ∧
         ((s.stageAt sid).singleEwmConsumer.isSome = true))) ∧
      (ruleMLTFusionMeet s sid = ConditionKind.kApplyAndSkipRest ↔
        ((s.stageAt sid).needsMultiLevelTiling = true ∧
         (s.stageAt sid).singleEwmConsumer.isSome = true ∧
         hasCacheWriteOn s sid = true))) ∧
    (∀ (ext : Ext) (p : Params) (s : State) (sid : Nat),
      ruleMLTFusionApply ext p s sid =
        ([1, 2].filter (fun level => charIsS (p.cpuStructure.getD (level - 1) 'x'))).map
          (mltFusionVariant ext p s sid)) := by
  constructor
  · intro s sid
    unfold ruleMLTFusionMeet
    cases h1 : (s.stageAt sid).needsMultiLevelTiling <;>
      cases h2 : (s.stageAt sid).singleEwmConsumer.isSome <;>
        cases h3 : hasCacheWriteOn s sid <;>
          simp [h1, h2, h3]
  · intro ext p s sid
    unfold ruleMLTFusionApply mltFusionVariant
    simp only [List.getD]
    cases h1 : charIsS (p.cpuStructure[0]?.getD 'x') <;>
      cases h2 : charIsS (p.cpuStructure[1]?.getD 'x') <;>
        simp [h1, h2]

/-! ### Claims C1 and C2: Search with at most one trial, and the
evolutionary-search stub -/

/-- With an informative cost model, one round's best-states list is the
output of the (stubbed) evolutionary search and is therefore empty. -/
theorem searchOneRound_reasonable_empty (ext : Ext) (fuel : Nat) (pol : Policy)
    (nrs : Nat) (r : RoundResult) (hcm : pol.costModelIsRandom = false)
    (h : searchOneRound ext fuel pol nrs = Except.ok r) : r.bestStates = [] := by
  unfold searchOneRound at h
  rw [hcm] at h
  simp only [Bool.not_false, if_true] at h
  split at h
  · exact absurd h (by simp)
  · split at h
    · exact absurd h (by simp)
    · split at h
      · exact absurd h (by simp)
      · rename_i rand rng2 heq
        rw [← Except.ok.inj h]
        rfl

/-- Unfolding of `Search` on the no-measurement branch `n_trials <= 1`. -/
theorem search_le_one_eq (ext : Ext) (rf lf : Nat) (meas : Measurer) (pol : Policy)
    (nT es : Int) (nmpi : Nat) (h : nT ≤ 1) :
    search ext rf lf meas pol nT es nmpi =
      (match searchOneRound ext rf { pol with numMeasurePerIter := nmpi } 0 with
       | Except.error e => (Except.error e, [Event.roundCall 0])
       | Except.ok r =>
         match r.bestStates with
         | [] => (Except.error Err.checkFail, [Event.roundCall 0])
         | st :: _ => (Except.ok st, [Event.roundCall 0])) := by
  unfold search
  rw [if_pos h]

/-- C2: `EvolutionarySearch` is a stub returning the empty array; hence any
successful `SearchOneRound` under a non-random cost model returns an empty
best-states list, and `Search` with `n_trials <= 1` and a non-random cost
model fails its `CHECK_GT(best_states.size(), 0)`. -/
theorem c2_evolutionary_stub :
    (∀ (pop : List State) (n : Nat), evolutionarySearch pop n = []) ∧
    (∀ (ext : Ext) (fuel : Nat) (pol : Policy) (nrs : Nat) (r : RoundResult),
      pol.costModelIsRandom = false → searchOneRound ext fuel pol nrs = Except.ok r →
      r.bestStates = []) ∧
    (∀ (ext : Ext) (rf lf : Nat) (meas : Measurer) (pol : Policy)
        (nT es : Int) (nmpi : Nat),
      pol.costModelIsRandom = false → nT ≤ 1 →
      isOkE (searchOneRound ext rf { pol with numMeasurePerIter := nmpi } 0) = true →
      (search ext rf lf meas pol nT es nmpi).1 = Except.error Err.checkFail) := by
  refine ⟨fun _ _ => rfl, searchOneRound_reasonable_empty, ?_⟩
  intro ext rf lf meas pol nT es nmpi hcm hle hok
  rw [search_le_one_eq ext rf lf meas pol nT es nmpi hle]
  cases hr : searchOneRound ext rf { pol with numMeasurePerIter := nmpi } 0 with
  | error e =>
    rw [hr] at hok
    exact absurd hok (by simp [isOkE])
  | ok r =>
    have hbest : r.bestStates = [] :=
      searchOneRound_reasonable_empty ext rf { pol with numMeasurePerIter := nmpi } 0 r hcm hr
    simp only [hbest]

/-- C2 (witness): on the concrete fixture with the informative cost model,
the single round succeeds yet the search aborts on the emptiness check. -/
theorem c2_witness :
    (search extW 8 4 measW polW2 1 0 1).1 = Except.error Err.checkFail :=
  c2_evolutionary_stub.2.2 extW 8 4 measW polW2 1 0 1 rfl (by decide) (by decide)

/-- C1: for `n_trials <= 1` the search performs no measurement and no
cost-model update — its event trace is exactly one `SearchOneRound(0)`
call — and any state it returns is the head of that round's best-states
list. -/
theorem c1_search_single_round :
    ∀ (ext : Ext) (rf lf : Nat) (meas : Measurer) (pol : Policy)
      (nT es : Int) (nmpi : Nat), nT ≤ 1 →
      (search ext rf lf meas pol nT es nmpi).2 = [Event.roundCall 0] ∧
      (∀ st, (search ext rf lf meas pol nT es nmpi).1 = Except.ok st →
        ∃ r, searchOneRound ext rf { pol with numMeasurePerIter := nmpi } 0 = Except.ok r ∧
          r.bestStates.head? = some st) := by
  intro ext rf lf meas pol nT es nmpi hle
  rw [search_le_one_eq ext rf lf meas pol nT es nmpi hle]
  cases hr : searchOneRound ext rf { pol with numMeasurePerIter := nmpi } 0 with
  | error e => exact ⟨by simp, fun st h => absurd h (by simp)⟩
  | ok r =>
    cases hb : r.bestStates with
    | nil => exact ⟨by simp [hb], fun st h => absurd h (by simp [hb])⟩
    | cons st0 rest =>
      refine ⟨by simp [hb], fun st h => ?_⟩
      simp only [hb, Except.ok.injEq] at h
      exact ⟨r, rfl, by rw [hb, ← h]; rfl⟩

/-- C1 (witness): the concrete fixture with the random cost model runs
exactly one round and returns its first state. -/
theorem c1_witness :
    (search extW 8 4 measW polW 1 0 1).2 = [Event.roundCall 0] ∧
    (∀ st, (search extW 8 4 measW polW 1 0 1).1 = Except.ok st →
      ∃ r, searchOneRound extW 8 { polW with numMeasurePerIter := 1 } 0 = Except.ok r ∧
        r.bestStates.head? = some st) :=
  c1_search_single_round extW 8 4 measW polW 1 0 1 (by decide)

/-! ### Claim C8: rfactor steps and their preceding splits -/

/-- Whether an optional step is an rfactor step. -/
def isRfStep (o : Option Step) : Bool :=
  match o with
  | some (Step.rfactor _ _ _) => true
  | _ => false

/-- Position `j` holds a split step with the single undefined length. -/
def splitNoneAt (steps : List Step) (j : Nat) : Prop :=
  ∃ sid iid e ito, steps.get? j = some (Step.split sid iid e [Option.none] ito)

/-- One post-pass step preserves length, rfactor positions, and established
split-with-undefined-length positions, and establishes the property at the
index it processes. -/
theorem rfactorHackAt_spec (st : List Step) (i : Nat) (st' : List Step)
    (h : rfactorHackAt st i = some st') :
    st'.length = st.length ∧
    (∀ j, isRfStep (st'.get? j) = isRfStep (st.get? j)) ∧
    (∀ j, splitNoneAt st j → splitNoneAt st' j) ∧
    (isRfStep (st.get? i) = true → 1 ≤ i ∧ splitNoneAt st' (i - 1)) := by
  unfold rfactorHackAt at h
  cases hi : st.get? i with
  | none =>
    rw [hi] at h
    simp only [Option.some.injEq] at h
    subst h
    exact ⟨rfl, fun _ => rfl, fun _ hp => hp, fun hrf => by simp [isRfStep, hi] at hrf⟩
  | some stp =>
    rw [hi] at h
    cases stp with
    | split a1 a2 a3 a4 a5 =>
      simp only [Option.some.injEq] at h
      subst h
      exact ⟨rfl, fun _ => rfl, fun _ hp => hp, fun hrf => by simp [isRfStep, hi] at hrf⟩
    | fuse a1 a2 =>
      simp only [Option.some.injEq] at h
      subst h
      exact ⟨rfl, fun _ => rfl, fun _ hp => hp, fun hrf => by simp [isRfStep, hi] at hrf⟩
    | reorder a1 a2 =>
      simp only [Option.some.injEq] at h
      subst h
      exact ⟨rfl, fun _ => rfl, fun _ hp => hp, fun hrf => by simp [isRfStep, hi] at hrf⟩
    | computeAt a1 a2 a3 =>
      simp only [Option.some.injEq] at h
      subst h
      exact ⟨rfl, fun _ => rfl, fun _ hp => hp, fun hrf => by simp [isRfStep, hi] at hrf⟩
    | computeInline a1 =>
      simp only [Option.some.injEq] at h
      subst h
      exact ⟨rfl, fun _ => rfl, fun _ hp => hp, fun hrf => by simp [isRfStep, hi] at hrf⟩
    | computeRoot a1 =>
      simp only [Option.some.injEq] at h
      subst h
      exact ⟨rfl, fun _ => rfl, fun _ hp => hp, fun hrf => by simp [isRfStep, hi] at hrf⟩
    | cacheWrite a1 a2 =>
      simp only [Option.some.injEq] at h
      subst h
      exact ⟨rfl, fun _ => rfl, fun _ hp => hp, fun hrf => by simp [isRfStep, hi] at hrf⟩
    | annotate a1 a2 a3 =>
      simp only [Option.some.injEq] at h
      subst h
      exact ⟨rfl, fun _ => rfl, fun _ hp => hp, fun hrf => by simp [isRfStep, hi] at hrf⟩
    | pragma a1 a2 a3 =>
      simp only [Option.some.injEq] at h
      subst h
      exact ⟨rfl, fun _ => rfl, fun _ hp => hp, fun hrf => by simp [isRfStep, hi] at hrf⟩
    | rfactor a b cc =>
      by_cases h0 : i == 0
      · rw [if_pos h0] at h
        exact absurd h (by simp)
      · rw [if_neg h0] at h
        cases hprev : st.get? (i - 1) with
        | none => rw [hprev] at h; exact absurd h (by simp)
        | some prev =>
          rw [hprev] at h
          cases prev with
          | fuse b1 b2 => exact absurd h (by simp)
          | reorder b1 b2 => exact absurd h (by simp)
          | computeAt b1 b2 b3 => exact absurd h (by simp)
          | computeInline b1 => exact absurd h (by simp)
          | computeRoot b1 => exact absurd h (by simp)
          | cacheWrite b1 b2 => exact absurd h (by simp)
          | rfactor b1 b2 b3 => exact absurd h (by simp)
          | annotate b1 b2 b3 => exact absurd h (by simp)
          | pragma b1 b2 b3 => exact absurd h (by simp)
          | split sid iid e ls ito =>
            simp only [Option.some.injEq] at h
            subst h
            have hlt : i - 1 < st.length := by
              by_contra hcon
              rw [List.get?_eq_none.mpr (Nat.le_of_not_lt hcon)] at hprev
              exact absurd hprev (by simp)
            refine ⟨List.length_set .., ?_, ?_, ?_⟩
            · intro j
              by_cases hj : i - 1 = j
              · subst hj
                rw [List.get?_set_eq_of_lt _ hlt, hprev]
                rfl
              · rw [List.get?_set_ne _ _ hj]
            · intro j hp
              by_cases hj : i - 1 = j
              · subst hj
                exact ⟨sid, iid, e, ito, List.get?_set_eq_of_lt _ hlt⟩
              · obtain ⟨a1, a2, a3, a4, hj2⟩ := hp
                exact ⟨a1, a2, a3, a4, by rw [List.get?_set_ne _ _ hj]; exact hj2⟩
            · intro _
              refine ⟨Nat.one_le_iff_ne_zero.mpr (by simpa using h0), ?_⟩
              exact ⟨sid, iid, e, ito, List.get?_set_eq_of_lt _ hlt⟩

/-- Processing the post-pass up to `k` preserves length and rfactor
positions and establishes the split property at every processed rfactor. -/
theorem rfactorHackGo_spec (steps : List Step) :
    ∀ (k : Nat) (st' : List Step), rfactorHackGo steps k = some st' →
      st'.length = steps.length ∧
      (∀ j, isRfStep (st'.get? j) = isRfStep (steps.get? j)) ∧
      (∀ i, i < k → isRfStep (st'.get? i) = true → 1 ≤ i ∧ splitNoneAt st' (i - 1)) := by
  intro k
  induction k with
  | zero =>
    intro st' h
    simp only [rfactorHackGo, Option.some.injEq] at h
    subst h
    exact ⟨rfl, fun _ => rfl, fun i hi => absurd hi (Nat.not_lt_zero i)⟩
  | succ k ih =>
    intro st' h
    simp only [rfactorHackGo] at h
    cases hgo : rfactorHackGo steps k with
    | none => rw [hgo] at h; exact absurd h (by simp)
    | some st1 =>
      rw [hgo] at h
      obtain ⟨ihlen, ihrf, ihgood⟩ := ih st1 hgo
      obtain ⟨hlen, hrf, hpres, hestab⟩ := rfactorHackAt_spec st1 k st' h
      refine ⟨hlen.trans ihlen, fun j => (hrf j).trans (ihrf j), ?_⟩
      intro i hik hirf
      rcases Nat.lt_succ_iff_lt_or_eq.mp hik with hik2 | hik2
      · obtain ⟨h1, hsp⟩ := ihgood i hik2 ((hrf i).symm.trans hirf)
        exact ⟨h1, hpres _ hsp⟩
      · subst hik2
        exact hestab ((hrf i).symm.trans hirf)
    
/-- The rfactor post-pass guarantees: in its output, every rfactor step is
immediately preceded by a split step whose lengths are the single undefined
entry. -/
theorem rfactorHack_spec (steps out : List Step) (h : rfactorHack steps = some out) :
    ∀ i, isRfStep (out.get? i) = true → 1 ≤ i ∧ splitNoneAt out (i - 1) := by
  intro i hirf
  obtain ⟨hlen, hrf, hgood⟩ := rfactorHackGo_spec steps steps.length out h
  by_cases hi : i < steps.length
  · exact hgood i hi hirf
  · exfalso
    rw [List.get?_eq_none.mpr (by rw [hlen]; exact Nat.le_of_not_lt hi)] at hirf
    simp [isRfStep] at hirf

/-- Members of a successful `mapE` run come from applying the transformer to
some input state. -/
theorem mem_mapE (f : State → Except Err State) :
    ∀ (l : List State) (res : List State), mapE f l = Except.ok res →
      ∀ b ∈ res, ∃ a ∈ l, f a = Except.ok b := by
  intro l
  induction l with
  | nil =>
    intro res h b hb
    simp only [mapE, Except.ok.injEq] at h
    subst h
    exact absurd hb (by simp)
  | cons a t ih =>
    intro res h b hb
    simp only [mapE] at h
    cases hfa : f a with
    | error e => rw [hfa] at h; exact absurd h (by simp)
    | ok a2 =>
      rw [hfa] at h
      cases hrest : mapE f t with
      | error e => rw [hrest] at h; exact absurd h (by simp)
      | ok l2 =>
        rw [hrest] at h
        simp only [Except.ok.injEq] at h
        subst h
        rcases List.mem_cons.mp hb with hb2 | hb2
        · exact ⟨a, List.mem_cons_self a t, by rw [hfa, hb2]⟩
        · obtain ⟨a3, ha3, hfa3⟩ := ih l2 hrest b hb2
          exact ⟨a3, List.mem_cons_of_mem a ha3, hfa3⟩

/-- C8: every state emitted by `GenerateSketches` has each rfactor step in
its transform history immediately preceded by a split step whose lengths
are all unset, ready for the init pass to fill randomly. -/
theorem c8_sketches_rfactor_preceded_by_unset_split :
    ∀ (ext : Ext) (p : Params) (fuel : Nat) (init : State) (s : State),
      s ∈ okList (generateSketches ext p fuel init) →
      ∀ (i a b cc : Nat), s.transformSteps.get? i = some (Step.rfactor a b cc) →
        1 ≤ i ∧ ∃ sid iid e ls ito,
          s.transformSteps.get? (i - 1) = some (Step.split sid iid e ls ito) ∧
          ls.all (fun x => x.isNone) = true := by
  intro ext p fuel init s hs i a b cc hi
  unfold generateSketches at hs
  revert hs
  cases hgen : genLoop ext p fuel [(init, (init.stages.length : Int) - 1)] [] with
  | error e => intro hs; exact absurd hs (by simp [okList])
  | ok outs =>
    intro hs
    have hs2 : s ∈ okList (mapE applyRfactorHack outs) := hs
    cases hmap : mapE applyRfactorHack outs with
    | error e => rw [hmap] at hs2; exact absurd hs2 (by simp [okList])
    | ok res =>
      rw [hmap] at hs2
      obtain ⟨y, _hy, hfy⟩ :=
        mem_mapE applyRfactorHack outs res hmap s (by simpa [okList] using hs2)
      unfold applyRfactorHack at hfy
      cases hhack : rfactorHack y.transformSteps with
      | none => rw [hhack] at hfy; exact absurd hfy (by simp)
      | some steps2 =>
        rw [hhack] at hfy
        simp only [Except.ok.injEq] at hfy
        have hsteps : s.transformSteps = steps2 := by rw [← hfy]
        obtain ⟨h1, sid, iid, e, ito, hsp⟩ :=
          rfactorHack_spec y.transformSteps steps2 hhack i
            (by rw [← hsteps, hi]; rfl)
        refine ⟨h1, sid, iid, e, [Option.none], ito, ?_, by simp⟩
        rw [hsteps]
        exact hsp

/-- C8 (witness): the first sketch generated for the concrete rfactor
fixture has its rfactor step at index 1 preceded by the unset split. -/
theorem c8_witness :
    1 ≤ 1 ∧ ∃ sid iid e ls ito,
      ((okList (generateSketches extW paramsW 8 stateR)).getD 0 default).transformSteps.get?
          (1 - 1) = some (Step.split sid iid e ls ito) ∧
        ls.all (fun x => x.isNone) = true :=
  c8_sketches_rfactor_preceded_by_unset_split extW paramsW 8 stateR
    ((okList (generateSketches extW paramsW 8 stateR)).getD 0 default)
    (by decide) 1 0 1 1 (by decide)

/-! ### Claim C4: the FillTileSize init rule -/

/-- Membership in `getFactors`. -/
theorem mem_getFactors {f n : Nat} (h : f ∈ getFactors n) :
    1 ≤ f ∧ f ∣ n ∧ f ≤ n := by
  unfold getFactors at h
  obtain ⟨hr, hf⟩ := List.mem_filter.mp h
  have hr2 := List.mem_range.mp hr
  simp only [Bool.and_eq_true, bne_iff_ne, ne_eq, beq_iff_eq, decide_eq_true_eq] at hf
  obtain ⟨hf0, hfmod⟩ := hf
  refine ⟨Nat.one_le_iff_ne_zero.mpr (by simpa using hf0), Nat.dvd_of_mod_eq_zero hfmod,
    Nat.lt_succ_iff.mp hr2⟩

/-- Every divisor chain has the right arity, positive entries and a product
dividing the extent. -/
theorem mem_allChains :
    ∀ (n rem : Nat) (cand : List Nat), cand ∈ allChains n rem →
      cand.length = n ∧ (∀ x ∈ cand, 1 ≤ x) ∧ cand.prod ∣ rem ∧ (1 ≤ n → 1 ≤ rem) := by
  intro n
  induction n with
  | zero =>
    intro rem cand h
    simp only [allChains, List.mem_singleton] at h
    subst h
    exact ⟨rfl, by simp, by simp, fun h1 => absurd h1 (by simp)⟩
  | succ n ih =>
    intro rem cand h
    simp only [allChains, List.mem_flatMap, List.mem_map] at h
    obtain ⟨f, hf, cand2, hc2, hcons⟩ := h
    obtain ⟨hf1, hfdvd, hfle⟩ := mem_getFactors hf
    obtain ⟨hlen, hpos, hdvd, _⟩ := ih (rem / f) cand2 hc2
    subst hcons
    refine ⟨by simp [hlen], ?_, ?_, fun _ => hf1.trans hfle⟩
    · intro x hx
      rcases List.mem_cons.mp hx with hx2 | hx2
      · rw [hx2]; exact hf1
      · exact hpos x hx2
    · rw [List.prod_cons]
      calc f * cand2.prod ∣ f * (rem / f) := Nat.mul_dvd_mul_left f hdvd
        _ = rem := Nat.mul_div_cancel' hfdvd

/-- Membership in the factorization schemes. -/
theorem mem_getFactorizationSchemes {extent n maxInner : Nat} {cand : List Nat}
    (h : cand ∈ getFactorizationSchemes extent n maxInner) :
    cand.length = n ∧ (∀ x ∈ cand, 1 ≤ x) ∧ cand.prod ∣ extent ∧ (1 ≤ n → 1 ≤ extent) ∧
      cand.getLastD 1 ≤ maxInner := by
  unfold getFactorizationSchemes at h
  obtain ⟨hc, hlast⟩ := List.mem_filter.mp h
  obtain ⟨h1, h2, h3, h4⟩ := mem_allChains n extent cand hc
  exact ⟨h1, h2, h3, h4, by simpa using hlast⟩

/-- Behaviour of `fillTileSizeStep` on one step. -/
theorem fillTileSizeStep_spec (p : Params) (rng : Rng) (stp stp2 : Step) (rng2 : Rng)
    (h : fillTileSizeStep p rng stp = some (stp2, rng2)) :
    (∀ sid iid e ls ito, stp2 = Step.split sid iid e ls ito →
      ls.all (fun l => l.isSome) = true) ∧
    (∀ sid iid e ls ito, stp = Step.split sid iid (some e) ls ito →
      ls.all (fun l => l.isSome) = false →
      ∃ cand, cand ∈ getFactorizationSchemes e ls.length p.maxInnermostSplitFactor ∧
        stp2 = Step.split sid iid (some e) (cand.map some) ito) ∧
    ((∀ sid iid e ls ito, stp = Step.split sid iid e ls ito →
        ls.all (fun l => l.isSome) = true) → stp2 = stp) := by
  cases stp with
  | fuse a1 a2 =>
    simp only [fillTileSizeStep, Option.some.injEq, Prod.mk.injEq] at h
    obtain ⟨h1, h2⟩ := h
    subst h1
    subst h2
    exact ⟨fun sid2 iid2 e2 ls2 ito2 heq => absurd heq (by simp),
      fun sid2 iid2 e2 ls2 ito2 heq => absurd heq (by simp),
      fun _ => rfl⟩
  | reorder a1 a2 =>
    simp only [fillTileSizeStep, Option.some.injEq, Prod.mk.injEq] at h
    obtain ⟨h1, h2⟩ := h
    subst h1
    subst h2
    exact ⟨fun sid2 iid2 e2 ls2 ito2 heq => absurd heq (by simp),
      fun sid2 iid2 e2 ls2 ito2 heq => absurd heq (by simp),
      fun _ => rfl⟩
  | computeAt a1 a2 a3 =>
    simp only [fillTileSizeStep, Option.some.injEq, Prod.mk.injEq] at h
    obtain ⟨h1, h2⟩ := h
    subst h1
    subst h2
    exact ⟨fun sid2 iid2 e2 ls2 ito2 heq => absurd heq (by simp),
      fun sid2 iid2 e2 ls2 ito2 heq => absurd heq (by simp),
      fun _ => rfl⟩
  | computeInline a1 =>
    simp only [fillTileSizeStep, Option.some.injEq, Prod.mk.injEq] at h
    obtain ⟨h1, h2⟩ := h
    subst h1
    subst h2
    exact ⟨fun sid2 iid2 e2 ls2 ito2 heq => absurd heq (by simp),
      fun sid2 iid2 e2 ls2 ito2 heq => absurd heq (by simp),
      fun _ => rfl⟩
  | computeRoot a1 =>
    simp only [fillTileSizeStep, Option.some.injEq, Prod.mk.injEq] at h
    obtain ⟨h1, h2⟩ := h
    subst h1
    subst h2
    exact ⟨fun sid2 iid2 e2 ls2 ito2 heq => absurd heq (by simp),
      fun sid2 iid2 e2 ls2 ito2 heq => absurd heq (by simp),
      fun _ => rfl⟩
  | cacheWrite a1 a2 =>
    simp only [fillTileSizeStep, Option.some.injEq, Prod.mk.injEq] at h
    obtain ⟨h1, h2⟩ := h
    subst h1
    subst h2
    exact ⟨fun sid2 iid2 e2 ls2 ito2 heq => absurd heq (by simp),
      fun sid2 iid2 e2 ls2 ito2 heq => absurd heq (by simp),
      fun _ => rfl⟩
  | rfactor a1 a2 a3 =>
    simp only [fillTileSizeStep, Option.some.injEq, Prod.mk.injEq] at h
    obtain ⟨h1, h2⟩ := h
    subst h1
    subst h2
    exact ⟨fun sid2 iid2 e2 ls2 ito2 heq => absurd heq (by simp),
      fun sid2 iid2 e2 ls2 ito2 heq => absurd heq (by simp),
      fun _ => rfl⟩
  | annotate a1 a2 a3 =>
    simp only [fillTileSizeStep, Option.some.injEq, Prod.mk.injEq] at h
    obtain ⟨h1, h2⟩ := h
    subst h1
    subst h2
    exact ⟨fun sid2 iid2 e2 ls2 ito2 heq => absurd heq (by simp),
      fun sid2 iid2 e2 ls2 ito2 heq => absurd heq (by simp),
      fun _ => rfl⟩
  | pragma a1 a2 a3 =>
    simp only [fillTileSizeStep, Option.some.injEq, Prod.mk.injEq] at h
    obtain ⟨h1, h2⟩ := h
    subst h1
    subst h2
    exact ⟨fun sid2 iid2 e2 ls2 ito2 heq => absurd heq (by simp),
      fun sid2 iid2 e2 ls2 ito2 heq => absurd heq (by simp),
      fun _ => rfl⟩
  | split sid iid e ls ito =>
    simp only [fillTileSizeStep] at h
    split at h
    case isTrue hall =>
      simp only [Option.some.injEq, Prod.mk.injEq] at h
      obtain ⟨h1, h2⟩ := h
      subst h1
      subst h2
      refine ⟨?_, ?_, fun _ => rfl⟩
      · intro sid2 iid2 e2 ls2 ito2 heq
        injection heq with q1 q2 q3 q4 q5
        subst q4
        exact hall
      · intro sid2 iid2 e2 ls2 ito2 heq hfalse
        injection heq with q1 q2 q3 q4 q5
        subst q4
        rw [hall] at hfalse
        exact absurd hfalse (by simp)
    case isFalse hall =>
      cases e with
      | none => exact absurd h (by simp)
      | some ev =>
        simp only [] at h
        split at h
        case isTrue hlen => exact absurd h (by simp)
        case isFalse hlen =>
          have hpos : 0 < (getFactorizationSchemes ev ls.length p.maxInnermostSplitFactor).length := by
            cases hq : (getFactorizationSchemes ev ls.length p.maxInnermostSplitFactor).length with
            | zero => exact absurd (by simp [hq]) hlen
            | succ m => exact Nat.succ_pos m
          have hlt : rng.next.1 % (getFactorizationSchemes ev ls.length p.maxInnermostSplitFactor).length <
              (getFactorizationSchemes ev ls.length p.maxInnermostSplitFactor).length :=
            Nat.mod_lt _ hpos
          have hmem : (getFactorizationSchemes ev ls.length p.maxInnermostSplitFactor).getD
              (rng.next.1 % (getFactorizationSchemes ev ls.length p.maxInnermostSplitFactor).length) [] ∈
              getFactorizationSchemes ev ls.length p.maxInnermostSplitFactor := by
            rw [List.getD_eq_getElem _ [] hlt]
            exact List.getElem_mem hlt
          simp only [Option.some.injEq, Prod.mk.injEq] at h
          obtain ⟨h1, h2⟩ := h
          subst h1
          subst h2
          refine ⟨?_, ?_, ?_⟩
          · intro sid2 iid2 e2 ls2 ito2 heq
            injection heq with q1 q2 q3 q4 q5
            subst q4
            simp
          · intro sid2 iid2 e2 ls2 ito2 heq hfalse
            injection heq with q1 q2 q3 q4 q5
            subst q1
            subst q2
            subst q5
            have q3' : ev = e2 := by injection q3
            subst q3'
            subst q4
            exact ⟨_, hmem, rfl⟩
          · intro hdef
            have hcon := hdef sid iid (some ev) ls ito rfl
            rw [hcon] at hall
            exact absurd rfl hall

/-- The fill pass, over the whole history: all split steps in the output
have defined lengths, and each originally undefined split is replaced by a
scheme from the factorization memo. -/
theorem fillTileSizeGo_spec (p : Params) :
    ∀ (steps : List Step) (rng : Rng) (res : List Step) (rng2 : Rng),
      fillTileSizeGo p rng steps = some (res, rng2) →
      (∀ stp ∈ res, ∀ sid iid e ls ito, stp = Step.split sid iid e ls ito →
        ls.all (fun l => l.isSome) = true) ∧
      (∀ i sid iid e ls ito, steps.get? i = some (Step.split sid iid (some e) ls ito) →
        ls.all (fun l => l.isSome) = false →
        ∃ cand, cand ∈ getFactorizationSchemes e ls.length p.maxInnermostSplitFactor ∧
          res.get? i = some (Step.split sid iid (some e) (cand.map some) ito)) := by
  intro steps
  induction steps with
  | nil =>
    intro rng res rng2 h
    simp only [fillTileSizeGo, Option.some.injEq, Prod.mk.injEq] at h
    obtain ⟨h1, _⟩ := h
    subst h1
    exact ⟨fun stp hstp => absurd hstp (by simp), fun i sid iid e ls ito hi => absurd hi (by simp)⟩
  | cons stp rest ih =>
    intro rng res rng2 h
    simp only [fillTileSizeGo] at h
    cases hstep : fillTileSizeStep p rng stp with
    | none => rw [hstep] at h; exact absurd h (by simp)
    | some sr =>
      obtain ⟨stp2, rngB⟩ := sr
      rw [hstep] at h
      have hred : (match fillTileSizeGo p rngB rest with
          | Option.none => Option.none
          | some (l, rng3) => some (stp2 :: l, rng3)) = some (res, rng2) := h
      cases hrest : fillTileSizeGo p rngB rest with
      | none => rw [hrest] at hred; exact absurd hred (by simp)
      | some lr =>
        obtain ⟨l, rng3⟩ := lr
        rw [hrest] at hred
        simp only [Option.some.injEq, Prod.mk.injEq] at hred
        obtain ⟨h1, _⟩ := hred
        subst h1
        obtain ⟨hs1, hs2, _⟩ := fillTileSizeStep_spec p rng stp stp2 rngB hstep
        obtain ⟨ih1, ih2⟩ := ih rngB l rng3 hrest
        constructor
        · intro b hb
          rcases List.mem_cons.mp hb with hb2 | hb2
          · intro sid iid e ls ito heq
            exact hs1 sid iid e ls ito (hb2 ▸ heq)
          · exact ih1 b hb2
        · intro i sid iid e ls ito hi hfalse
          cases i with
          | zero =>
            simp only [List.get?_cons_zero, Option.some.injEq] at hi
            obtain ⟨cand, hc1, hc2⟩ := hs2 sid iid e ls ito hi hfalse
            exact ⟨cand, hc1, by simp [hc2]⟩
          | succ i2 =>
            simp only [List.get?_cons_succ] at hi
            obtain ⟨cand, hc1, hc2⟩ := ih2 i2 sid iid e ls ito hi hfalse
            exact ⟨cand, hc1, by simpa using hc2⟩

/-- C4: for every state returned by `InitFillTileSize`, every split step has
all lengths defined; each originally undefined split is replaced by one
whose lengths come from the factorization memo — so extend the extent into
`n + 1` positive integers with the innermost at most
`max_innermost_split_factor` — indexed by the random draw; the concrete
flag is set and the rule reports `kValid`. -/
theorem c4_init_fill_tile_size :
    ∀ (p : Params) (s : State) (rng : Rng) (out : State) (rng2 : Rng) (k : ResultKind),
      initFillTileSizeApply p s rng = some ((out, rng2), k) →
      k = ResultKind.kValid ∧ out.concrete = true ∧
      out.stages = s.stages ∧
      (∀ stp ∈ out.transformSteps, ∀ sid iid e ls ito,
        stp = Step.split sid iid e ls ito → ls.all (fun l => l.isSome) = true) ∧
      (∀ i sid iid e ls ito, s.transformSteps.get? i = some (Step.split sid iid (some e) ls ito) →
        ls.all (fun l => l.isSome) = false →
        ∃ cand, cand ∈ getFactorizationSchemes e ls.length p.maxInnermostSplitFactor ∧
          out.transformSteps.get? i = some (Step.split sid iid (some e) (cand.map some) ito) ∧
          cand.length = ls.length ∧ (∀ x ∈ cand, 1 ≤ x) ∧
          (∃ outer, 1 ≤ outer ∧ outer * cand.prod = e) ∧
          cand.getLastD 1 ≤ p.maxInnermostSplitFactor) := by
  intro p s rng out rng2 k h
  unfold initFillTileSizeApply at h
  cases hgo : fillTileSizeGo p rng s.transformSteps with
  | none => rw [hgo] at h; exact absurd h (by simp)
  | some sr =>
    obtain ⟨steps2, rngB⟩ := sr
    rw [hgo] at h
    simp only [Option.some.injEq, Prod.mk.injEq] at h
    obtain ⟨⟨h1, _⟩, hk⟩ := h
    subst hk
    obtain ⟨g1, g2⟩ := fillTileSizeGo_spec p s.transformSteps rng steps2 rngB hgo
    refine ⟨rfl, by rw [← h1], by rw [← h1], ?_, ?_⟩
    · intro stp hstp
      rw [← h1] at hstp
      exact g1 stp hstp
    · intro i sid iid e ls ito hi hfalse
      obtain ⟨cand, hc1, hc2⟩ := g2 i sid iid e ls ito hi hfalse
      obtain ⟨q1, q2, q3, q4, q5⟩ := mem_getFactorizationSchemes hc1
      have hls : ls ≠ [] := by
        intro hnil
        rw [hnil] at hfalse
        simp at hfalse
      have hn1 : 1 ≤ ls.length := List.length_pos.mpr hls
      have he1 : 1 ≤ e := q4 (q1 ▸ hn1)
      have hprodpos : 0 < cand.prod := List.prod_pos (fun x hx => q2 x hx)
      refine ⟨cand, hc1, by rw [← h1]; exact hc2, q1, q2, ?_, q5⟩
      refine ⟨e / cand.prod, ?_, ?_⟩
      · have hle : cand.prod ≤ e := Nat.le_of_dvd he1 q3
        exact Nat.one_le_div_iff hprodpos |>.mpr hle
      · exact Nat.div_mul_cancel q3

/-- The concrete input for the C4 witness: one split step with an undefined
length over extent 4. -/
def fillFixtureState : State :=
  { stateW with transformSteps := [Step.split 0 0 (some 4) [Option.none] true] }

/-- C4 (witness): on the concrete fixture the rule reports valid, sets the
concrete flag, and replaces the undefined length by a scheme. -/
theorem c4_witness :
    ResultKind.kValid = ResultKind.kValid ∧
    (State.mk fillFixtureState.stages [Step.split 0 0 (some 4) [some 1] true]
        fillFixtureState.attachMap true).concrete = true ∧
    (State.mk fillFixtureState.stages [Step.split 0 0 (some 4) [some 1] true]
        fillFixtureState.attachMap true).stages = fillFixtureState.stages ∧
    (∀ stp ∈ (State.mk fillFixtureState.stages [Step.split 0 0 (some 4) [some 1] true]
        fillFixtureState.attachMap true).transformSteps, ∀ sid iid e ls ito,
      stp = Step.split sid iid e ls ito → ls.all (fun l => l.isSome) = true) ∧
    (∀ i sid iid e ls ito,
      fillFixtureState.transformSteps.get? i = some (Step.split sid iid (some e) ls ito) →
      ls.all (fun l => l.isSome) = false →
      ∃ cand, cand ∈ getFactorizationSchemes e ls.length paramsW.maxInnermostSplitFactor ∧
        (State.mk fillFixtureState.stages [Step.split 0 0 (some 4) [some 1] true]
          fillFixtureState.attachMap true).transformSteps.get? i =
          some (Step.split sid iid (some e) (cand.map some) ito) ∧
        cand.length = ls.length ∧ (∀ x ∈ cand, 1 ≤ x) ∧
        (∃ outer, 1 ≤ outer ∧ outer * cand.prod = e) ∧
        cand.getLastD 1 ≤ paramsW.maxInnermostSplitFactor) :=
  c4_init_fill_tile_size paramsW fillFixtureState ⟨[0]⟩
    (State.mk fillFixtureState.stages [Step.split 0 0 (some 4) [some 1] true]
      fillFixtureState.attachMap true)
    ⟨[]⟩ ResultKind.kValid (by decide)

/-! ### Claim C7: the AddRfactor rule -/

/-- A successful split returns exactly the iterators of `mkSplitIters`. -/
theorem split_snd (s : State) (sid : Nat) (it : Iterator) (lengths : List (Option Nat))
    (s2 : State) (res : List Iterator) (h : s.split sid it lengths = some (s2, res)) :
    res = mkSplitIters it lengths := by
  unfold State.split at h
  split at h
  · exact absurd h (by simp)
  · split at h
    · exact absurd h (by simp)
    · simp only [Option.some.injEq, Prod.mk.injEq] at h
      exact h.2.symm

/-- Appending distinct suffixes to the same string yields distinct strings. -/
theorem str_append_ne (a : String) {b c : String} (hbc : b.data ≠ c.data) :
    a ++ b ≠ a ++ c := by
  intro hcon
  have hd := congrArg String.data hcon
  rw [String.data_append, String.data_append] at hd
  exact hbc (List.append_cancel_left hd)

/-- The two iterators a one-length split produces are distinct. -/
theorem mkSplitIters_one_ne (it : Iterator) (l : Option Nat) :
    (mkSplitIters it [l]).getD 0 default ≠ (mkSplitIters it [l]).getD 1 default := by
  intro hcon
  have hn := congrArg Iterator.name hcon
  simp only [mkSplitIters, List.length_cons, List.length_nil, List.range_succ,
    List.range_zero, List.nil_append, List.zipWith_cons_cons, List.zipWith_nil_right,
    List.getD_cons_zero, List.getD_cons_succ] at hn
  have hd := congrArg String.data hn
  rw [String.data_append, String.data_append, String.data_append, List.append_assoc] at hd
  have htail := List.append_cancel_left hd
  exact absurd htail (by decide)

/-- The reorder-space-to-innermost variant the rule builds for the second
split iterator. -/
def reorderSpaceToInnermost (t : State) (rid fa : Nat) : State :=
  let its := (t.stageAt rid).iters
  t.reorder rid
    (((List.range its.length).filterMap (fun i =>
      if i == fa then Option.none else its.get? i)) ++ [its.getD fa default])

/-- C7: the AddRfactor rule applies exactly when the stage's op needs
multi-level tiling, has a fuse-factorable reduction axis (the spec-modelled
`NeedsRfactor`) and has no cache-write stage yet; its application fuses all
reduction iterators, splits the fused iterator by factor 1, and emits
exactly two successor states — the rfactor variant as is, and the rfactor
variant with the space iterator reordered to innermost. -/
theorem c7_add_rfactor_rule :
    (∀ (s : State) (sid : Nat),
      (ruleAddRfactorMeet s sid = ConditionKind.kApply ↔
        ((s.stageAt sid).needsMultiLevelTiling = true ∧
         (s.stageAt sid).fuseFactorableReduction = true ∧
         hasCacheWriteOn s sid = false)) ∧
      (ruleAddRfactorMeet s sid = ConditionKind.kApply ∨
       ruleAddRfactorMeet s sid = ConditionKind.kPass)) ∧
    (∀ (s : State) (sid : Nat) (base : State) (fused : Iterator)
        (space reduce : List Iterator) (base2 : State) (res : List Iterator),
      fuseAllReductionIterators s sid = some (base, fused, space, reduce) →
      base.split sid fused [some 1] = some (base2, res) →
      ∃ it0 it1, res = [it0, it1] ∧ it0 ≠ it1 ∧
        ruleAddRfactorApply s sid = some
          [((base2.rfactor sid it0 space.length).1,
            ((base2.rfactor sid it0 space.length).2 : Int) - 1),
           (reorderSpaceToInnermost (base2.rfactor sid it1 space.length).1
              (base2.rfactor sid it1 space.length).2 space.length,
            ((base2.rfactor sid it1 space.length).2 : Int) - 1)]) := by
  constructor
  · intro s sid
    constructor
    · unfold ruleAddRfactorMeet needsRfactor
      cases h1 : (s.stageAt sid).needsMultiLevelTiling <;>
        cases h2 : (s.stageAt sid).fuseFactorableReduction <;>
          cases h3 : hasCacheWriteOn s sid <;>
            simp [h1, h2, h3]
    · unfold ruleAddRfactorMeet
      cases needsRfactor s sid && !hasCacheWriteOn s sid <;> simp
  · intro s sid base fused space reduce base2 res hfuse hsplit
    have hres : res = mkSplitIters fused [some 1] := split_snd base sid fused [some 1] base2 res hsplit
    have hres2 : ∃ it0 it1, res = [it0, it1] := by
      rw [hres]
      simp only [mkSplitIters, List.length_cons, List.length_nil, List.range_succ]
      exact ⟨_, _, rfl⟩
    obtain ⟨it0, it1, hres3⟩ := hres2
    have hne : it0 ≠ it1 := by
      have := mkSplitIters_one_ne fused (some 1)
      rw [← hres, hres3] at this
      simpa using this
    refine ⟨it0, it1, hres3, hne, ?_⟩
    have hbeq0 : (it0 == it1) = false := beq_eq_false_iff_ne.mpr hne
    unfold ruleAddRfactorApply reorderSpaceToInnermost
    rw [hfuse]
    simp only [hsplit, hres3, List.map_cons, List.map_nil, List.getD_cons_zero,
      List.getD_cons_succ, hbeq0, beq_self_eq_true, Bool.false_eq_true, if_false, if_true,
      Option.some.injEq]

/-- The post-split state of the C7 witness fixture. -/
def c7Base2 : State := ((stateR.split 0 iterR0 [some 1]).getD (default, [])).1

/-- The split iterators of the C7 witness fixture. -/
def c7Res : List Iterator := ((stateR.split 0 iterR0 [some 1]).getD (default, [])).2

/-- C7 (witness): the concrete rfactor fixture yields exactly the two
variants. -/
theorem c7_witness :
    ∃ it0 it1, c7Res = [it0, it1] ∧ it0 ≠ it1 ∧
      ruleAddRfactorApply stateR 0 = some
        [((c7Base2.rfactor 0 it0 1).1, ((c7Base2.rfactor 0 it0 1).2 : Int) - 1),
         (reorderSpaceToInnermost (c7Base2.rfactor 0 it1 1).1
            (c7Base2.rfactor 0 it1 1).2 1,
          ((c7Base2.rfactor 0 it1 1).2 : Int) - 1)] :=
  c7_add_rfactor_rule.2 stateR 0 stateR iterR0 [iterS0] [iterR0] c7Base2 c7Res
    (by decide) (by decide)

/-! ### Claim C10: init rules never report an invalid sample -/

/-- `InitFillTileSize` only ever reports `kValid`. -/
theorem initFillTileSizeApply_valid (p : Params) (s : State) (rng : Rng)
    (sr : State × Rng) (k : ResultKind) (h : initFillTileSizeApply p s rng = some (sr, k)) :
    k = ResultKind.kValid := by
  unfold initFillTileSizeApply at h
  split at h
  · exact absurd h (by simp)
  · simp only [Option.some.injEq, Prod.mk.injEq] at h
    exact h.2.symm

/-- `InitChangeComputeLocation` only ever reports `kValid`. -/
theorem initChangeComputeLocationApply_valid (ext : Ext) (p : Params) (s : State) (rng : Rng)
    (sr : State × Rng) (k : ResultKind)
    (h : initChangeComputeLocationApply ext p s rng = some (sr, k)) :
    k = ResultKind.kValid := by
  unfold initChangeComputeLocationApply at h
  split at h
  · simp only [Option.some.injEq, Prod.mk.injEq] at h
    exact h.2.symm
  · split at h
    · exact absurd h (by simp)
    · simp only [Option.some.injEq, Prod.mk.injEq] at h
      exact h.2.symm

/-- `InitParallel` only ever reports `kValid`. -/
theorem initParallelApply_valid (p : Params) (s : State) (rng : Rng)
    (sr : State × Rng) (k : ResultKind) (h : initParallelApply p s rng = some (sr, k)) :
    k = ResultKind.kValid := by
  unfold initParallelApply at h
  dsimp only at h
  split at h
  · exact absurd h (by simp)
  · simp only [Option.some.injEq, Prod.mk.injEq] at h
    exact h.2.symm

/-- `InitVectorization` only ever reports `kValid`. -/
theorem initVectorizationApply_valid (p : Params) (s : State) (rng : Rng)
    (sr : State × Rng) (k : ResultKind) (h : initVectorizationApply p s rng = some (sr, k)) :
    k = ResultKind.kValid := by
  unfold initVectorizationApply at h
  split at h
  · exact absurd h (by simp)
  · simp only [Option.some.injEq, Prod.mk.injEq] at h
    exact h.2.symm

/-- `InitUnroll` only ever reports `kValid`. -/
theorem initUnrollApply_valid (s : State) (rng : Rng)
    (sr : State × Rng) (k : ResultKind) (h : initUnrollApply s rng = some (sr, k)) :
    k = ResultKind.kValid := by
  unfold initUnrollApply at h
  split at h
  · exact absurd h (by simp)
  · simp only [Option.some.injEq, Prod.mk.injEq] at h
    exact h.2.symm

/-- Sequencing preserves "only ever valid". -/
theorem runInitRule_valid (res : Option ((State × Rng) × ResultKind))
    (next : State → Rng → Option ((State × Rng) × ResultKind))
    (hres : ∀ sr k, res = some (sr, k) → k = ResultKind.kValid)
    (hnext : ∀ s rng sr k, next s rng = some (sr, k) → k = ResultKind.kValid) :
    ∀ sr k, runInitRule res next = some (sr, k) → k = ResultKind.kValid := by
  intro sr k h
  unfold runInitRule at h
  cases hr : res with
  | none => rw [hr] at h; exact absurd h (by simp)
  | some rk =>
    obtain ⟨sr2, k2⟩ := rk
    have hk2 := hres sr2 k2 hr
    subst hk2
    rw [hr] at h
    exact hnext sr2.1 sr2.2 sr k h

/-- The composition of the five init rules only ever reports `kValid`. -/
theorem applyInitRules_valid (ext : Ext) (p : Params) (s : State) (rng : Rng)
    (sr : State × Rng) (k : ResultKind) (h : applyInitRules ext p s rng = some (sr, k)) :
    k = ResultKind.kValid := by
  unfold applyInitRules at h
  refine runInitRule_valid _ _ ?_ (initUnrollApply_valid) sr k h
  refine runInitRule_valid _ _ ?_ (initVectorizationApply_valid p)
  refine runInitRule_valid _ _ ?_ (initParallelApply_valid p)
  refine runInitRule_valid _ _ ?_ (initChangeComputeLocationApply_valid ext p)
  exact fun sr2 k2 h2 => initFillTileSizeApply_valid p s rng sr2 k2 h2

/-- The sampling loop keeps the fail count at zero and, when it returns,
has produced exactly `outSize` states. -/
theorem sampleInitPopulation_spec (ext : Ext) (p : Params) :
    ∀ (fuel : Nat) (sketches : List State) (outSize : Nat) (rng : Rng) (out : List State)
      (res : List State) (fail2 : Nat) (rng2 : Rng),
      out.length ≤ outSize →
      sampleInitPopulation ext p fuel sketches outSize rng out 0 = some (res, fail2, rng2) →
      fail2 = 0 ∧ res.length = outSize := by
  intro fuel
  induction fuel with
  | zero =>
    intro sketches outSize rng out res fail2 rng2 hle h
    exact absurd h (by simp [sampleInitPopulation])
  | succ fuel ih =>
    intro sketches outSize rng out res fail2 rng2 hle h
    simp only [sampleInitPopulation] at h
    split at h
    case isTrue hguard =>
      simp only [Bool.and_eq_true, decide_eq_true_eq] at hguard
      obtain ⟨hlt, hpos⟩ := hguard
      split at h
      case isTrue hempty => exact absurd h (by simp)
      case isFalse hempty =>
        cases happ : applyInitRules ext p
            (sketches.getD (rng.next.1 % sketches.length) default) rng.next.2 with
        | none => rw [happ] at h; exact absurd h (by simp)
        | some rk =>
          obtain ⟨⟨s2, rngB⟩, k2⟩ := rk
          have hk2 := applyInitRules_valid ext p _ _ _ _ happ
          subst hk2
          rw [happ] at h
          exact ih sketches outSize rngB (out ++ [s2]) res fail2 rng2
            (by simpa using Nat.succ_le_of_lt hlt) h
    case isFalse hguard =>
      simp only [Option.some.injEq, Prod.mk.injEq] at h
      obtain ⟨h1, h2, h3⟩ := h
      subst h1
      refine ⟨h2.symm, ?_⟩
      simp only [Bool.and_eq_true, decide_eq_true_eq, not_and] at hguard
      by_cases hz : 0 < outSize
      · have := hguard
        by_cases hlt : out.length < outSize
        · exact absurd hz (this hlt)
        · exact Nat.le_antisymm hle (Nat.le_of_not_lt hlt)
      · have hz2 : outSize = 0 := Nat.eq_zero_of_not_pos hz
        subst hz2
        exact Nat.le_antisymm hle (Nat.zero_le _)

/-- C10: none of the five init rules ever returns `kInvalid`, so the
sampling loop's fail counter stays 0 and a completed
`SampleInitPopulation` returns exactly `out_size` states. -/
theorem c10_init_rules_never_invalid :
    (∀ (p : Params) (s : State) (rng : Rng) (sr : State × Rng) (k : ResultKind),
      initFillTileSizeApply p s rng = some (sr, k) → k = ResultKind.kValid) ∧
    (∀ (ext : Ext) (p : Params) (s : State) (rng : Rng) (sr : State × Rng) (k : ResultKind),
      initChangeComputeLocationApply ext p s rng = some (sr, k) → k = ResultKind.kValid) ∧
    (∀ (p : Params) (s : State) (rng : Rng) (sr : State × Rng) (k : ResultKind),
      initParallelApply p s rng = some (sr, k) → k = ResultKind.kValid) ∧
    (∀ (p : Params) (s : State) (rng : Rng) (sr : State × Rng) (k : ResultKind),
      initVectorizationApply p s rng = some (sr, k) → k = ResultKind.kValid) ∧
    (∀ (s : State) (rng : Rng) (sr : State × Rng) (k : ResultKind),
      initUnrollApply s rng = some (sr, k) → k = ResultKind.kValid) ∧
    (∀ (ext : Ext) (p : Params) (fuel : Nat) (sketches : List State) (outSize : Nat)
        (rng : Rng) (res : List State) (fail2 : Nat) (rng2 : Rng),
      sampleInitPopulation ext p fuel sketches outSize rng [] 0 = some (res, fail2, rng2) →
      fail2 = 0 ∧ res.length = outSize) :=
  ⟨initFillTileSizeApply_valid, initChangeComputeLocationApply_valid,
   initParallelApply_valid, initVectorizationApply_valid, initUnrollApply_valid,
   fun ext p fuel sketches outSize rng res fail2 rng2 h =>
     sampleInitPopulation_spec ext p fuel sketches outSize rng [] res fail2 rng2
       (Nat.zero_le _) h⟩

/-- The concrete sampling run of the C10 witness. -/
def c10Run : Option (List State × Nat × Rng) :=
  sampleInitPopulation extW paramsW 5 [stateW] 2 ⟨[]⟩ [] 0

/-- C10 (witness): the concrete sampler run fails no sample and returns
exactly two states. -/
theorem c10_witness :
    (c10Run.getD ([], 0, ⟨[]⟩)).2.1 = 0 ∧ (c10Run.getD ([], 0, ⟨[]⟩)).1.length = 2 :=
  c10_init_rules_never_invalid.2.2.2.2.2 extW paramsW 5 [stateW] 2 ⟨[]⟩
    (c10Run.getD ([], 0, ⟨[]⟩)).1 (c10Run.getD ([], 0, ⟨[]⟩)).2.1
    (c10Run.getD ([], 0, ⟨[]⟩)).2.2 (by decide)

/-! ### Claim C3: epsilon-greedy picking never repeats a canonical form -/

/-- The selection loop only appends fresh states: the picked states extend
the inputs, their canonical forms extend the measured set, none of them was
in the incoming set, and their canonical forms are pairwise distinct. -/
theorem pickLoop_invariant (numMeasure numGood remaining : Nat) :
    ∀ (fuel : Nat) (best random inputs : List State) (set : List (List Step))
      (vec : List State),
      ∃ added : List State,
        pickLoop numMeasure numGood remaining fuel best random inputs set vec =
          (inputs ++ added, set ++ added.map State.toStr, vec ++ added) ∧
        (∀ a ∈ added, a.toStr ∉ set) ∧ (added.map State.toStr).Nodup := by
  intro fuel
  induction fuel with
  | zero =>
    intro best random inputs set vec
    exact ⟨[], by simp [pickLoop], by simp, by simp⟩
  | succ fuel ih =>
    intro best random inputs set vec
    have hcons : ∀ (s : State) (best2 random2 : List State),
        ∃ added : List State,
          (if set.contains s.toStr = true then
            pickLoop numMeasure numGood remaining fuel best2 random2 inputs set vec
          else
            pickLoop numMeasure numGood remaining fuel best2 random2
              (inputs ++ [s]) (set ++ [s.toStr]) (vec ++ [s])) =
            (inputs ++ added, set ++ added.map State.toStr, vec ++ added) ∧
          (∀ a ∈ added, a.toStr ∉ set) ∧ (added.map State.toStr).Nodup := by
      intro s best2 random2
      by_cases hc : set.contains s.toStr = true
      · rw [if_pos hc]
        exact ih best2 random2 inputs set vec
      · rw [if_neg hc]
        obtain ⟨added, heq, hnotin, hnodup⟩ :=
          ih best2 random2 (inputs ++ [s]) (set ++ [s.toStr]) (vec ++ [s])
        have hsk : s.toStr ∉ set := fun hmem => hc (by simpa using hmem)
        refine ⟨s :: added, ?_, ?_, ?_⟩
        · rw [heq]
          simp [List.append_assoc]
        · intro a ha
          rcases List.mem_cons.mp ha with h1 | h1
          · rw [h1]; exact hsk
          · exact fun hmem => hnotin a h1 (List.mem_append_left _ hmem)
        · simp only [List.map_cons, List.nodup_cons]
          refine ⟨?_, hnodup⟩
          intro hmem
          obtain ⟨a, ha, htoStr⟩ := List.mem_map.mp hmem
          exact hnotin a ha (by rw [htoStr]; exact List.mem_append_right _ (by simp))
    by_cases hg : inputs.length < min numMeasure remaining
    · by_cases hng : inputs.length < numGood
      · cases best with
        | cons s rest =>
          simp only [pickLoop]
          rw [if_pos hg, if_pos hng]
          exact hcons s rest random
        | nil =>
          cases random with
          | cons s rest =>
            simp only [pickLoop]
            rw [if_pos hg, if_pos hng]
            exact hcons s [] rest
          | nil =>
            refine ⟨[], ?_, by simp, by simp⟩
            simp only [pickLoop]
            rw [if_pos hg, if_pos hng]
            simp
      · cases random with
        | cons s rest =>
          simp only [pickLoop]
          rw [if_pos hg, if_neg hng]
          exact hcons s best rest
        | nil =>
          cases best with
          | cons s rest =>
            simp only [pickLoop]
            rw [if_pos hg, if_neg hng]
            exact hcons s rest []
          | nil =>
            refine ⟨[], ?_, by simp, by simp⟩
            simp only [pickLoop]
            rw [if_pos hg, if_neg hng]
            simp
    · refine ⟨[], ?_, by simp, by simp⟩
      simp only [pickLoop]
      rw [if_neg hg]
      simp

/-- A sequence of `PickStatesWithEpsGreedy` calls within one search,
threading the measured set and vector; returns all picked inputs in
order. -/
def pickCallsGo (p : Params) (nmpi : Nat) :
    List (List State × List State × Nat) → List (List Step) → List State → List State
  | [], _, _ => []
  | (best, random, remaining) :: calls, set, vec =>
    let picked := pickStatesWithEpsGreedy p nmpi best random remaining set vec
    picked.1 ++ pickCallsGo p nmpi calls picked.2.1 picked.2.2

/-- One call's picked states: fresh against the incoming set, recorded in
the outgoing set, pairwise distinct. -/
theorem pickStates_call_spec (p : Params) (nmpi : Nat) (best random : List State)
    (remaining : Nat) (set : List (List Step)) (vec : List State) :
    ∃ added : List State,
      pickStatesWithEpsGreedy p nmpi best random remaining set vec =
        (added, set ++ added.map State.toStr, vec ++ added) ∧
      (∀ a ∈ added, a.toStr ∉ set) ∧ (added.map State.toStr).Nodup := by
  obtain ⟨added, heq, h1, h2⟩ :=
    pickLoop_invariant nmpi (nmpi - p.epsGreedy.scaleTrunc nmpi) remaining
      (best.length + random.length + 1) best random [] set vec
  exact ⟨added, by simpa [pickStatesWithEpsGreedy] using heq, h1, h2⟩

/-- Across a call sequence, all picked canonical forms are distinct and
avoid the initial measured set. -/
theorem pickCallsGo_spec (p : Params) (nmpi : Nat) :
    ∀ (calls : List (List State × List State × Nat)) (set : List (List Step))
      (vec : List State),
      ((pickCallsGo p nmpi calls set vec).map State.toStr).Nodup ∧
      (∀ key ∈ (pickCallsGo p nmpi calls set vec).map State.toStr, key ∉ set) := by
  intro calls
  induction calls with
  | nil => intro set vec; exact ⟨by simp [pickCallsGo], by simp [pickCallsGo]⟩
  | cons cl calls ih =>
    intro set vec
    obtain ⟨best, random, remaining⟩ := cl
    obtain ⟨added, heq, h1, h2⟩ := pickStates_call_spec p nmpi best random remaining set vec
    have hunf : pickCallsGo p nmpi ((best, random, remaining) :: calls) set vec =
        added ++ pickCallsGo p nmpi calls (set ++ added.map State.toStr) (vec ++ added) := by
      simp only [pickCallsGo, heq]
    obtain ⟨ihnodup, ihfresh⟩ := ih (set ++ added.map State.toStr) (vec ++ added)
    rw [hunf]
    constructor
    · rw [List.map_append]
      refine List.Nodup.append h2 ihnodup ?_
      intro key hk1 hk2
      exact ihfresh key hk2 (List.mem_append_right _ hk1)
    · intro key hk
      rw [List.map_append] at hk
      rcases List.mem_append.mp hk with hk2 | hk2
      · obtain ⟨a, ha, hkey⟩ := List.mem_map.mp hk2
        rw [← hkey]
        exact h1 a ha
      · intro hmem
        exact ihfresh key hk2 (List.mem_append_left _ hmem)

/-- C3: within one search, the canonical forms of the states returned by
`PickStatesWithEpsGreedy` are pairwise distinct across all calls: a state
whose canonical form is already in the measured set is never returned, every
returned state's form is inserted into the set at pick time, and the
concatenation of all batches has no duplicate canonical form. -/
theorem c3_pick_states_no_duplicates :
    (∀ (p : Params) (nmpi : Nat) (best random : List State) (remaining : Nat)
        (set : List (List Step)) (vec : List State) (inputs : List State)
        (set2 : List (List Step)) (vec2 : List State),
      pickStatesWithEpsGreedy p nmpi best random remaining set vec = (inputs, set2, vec2) →
      (inputs.map State.toStr).Nodup ∧
      (∀ st ∈ inputs, st.toStr ∉ set ∧ st.toStr ∈ set2)) ∧
    (∀ (p : Params) (nmpi : Nat) (calls : List (List State × List State × Nat))
        (set : List (List Step)) (vec : List State),
      ((pickCallsGo p nmpi calls set vec).map State.toStr).Nodup) := by
  constructor
  · intro p nmpi best random remaining set vec inputs set2 vec2 h
    obtain ⟨added, heq, h1, h2⟩ := pickStates_call_spec p nmpi best random remaining set vec
    rw [heq] at h
    obtain ⟨hi, hs, _⟩ := (by
      injection h with ha hb
      injection hb with hb1 hb2
      exact ⟨ha.symm, hb1.symm, hb2.symm⟩ :
        inputs = added ∧ set2 = set ++ added.map State.toStr ∧ vec2 = vec ++ added)
    subst hi
    subst hs
    refine ⟨h2, fun st hst => ⟨h1 st hst, ?_⟩⟩
    exact List.mem_append_right _ (List.mem_map_of_mem _ hst)
  · intro p nmpi calls set vec
    exact (pickCallsGo_spec p nmpi calls set vec).1

/-- The concrete pick of the C3 witness. -/
def c3Pick : List State × List (List Step) × List State :=
  pickStatesWithEpsGreedy paramsW 2 [stateW] [] 5 [] []

/-- C3 (witness): the concrete pick returns one fresh state, recorded in
the set. -/
theorem c3_witness :
    (c3Pick.1.map State.toStr).Nodup ∧
    (∀ st ∈ c3Pick.1, st.toStr ∉ ([] : List (List Step)) ∧ st.toStr ∈ c3Pick.2.1) :=
  c3_pick_states_no_duplicates.1 paramsW 2 [stateW] [] 5 [] []
    c3Pick.1 c3Pick.2.1 c3Pick.2.2 (by decide)

/-! ### Claim C9: the Vectorize init rule -/

/-- Product of the extents of the innermost `k` iterators (unknown extents
count as 0; the walks below never reach one). -/
def lastExtentsProd (stage : Stage) (k : Nat) : Nat :=
  ((stage.iters.drop (stage.iters.length - k)).map (fun it => it.extent.getD 0)).prod

/-- The fusible-count walk as the claim words it: from innermost outward
while iterators are spatial, unannotated, and the cumulative extent stays
within `max_vectorize_size`. -/
def claimNumFusible (p : Params) (stage : Stage) : Nat :=
  ((List.range stage.iters.length).takeWhile (fun j =>
    let it := stage.iters.getD (stage.iters.length - 1 - j) default
    it.kind == IterKind.spatial && it.annot == IterAnnot.none &&
      decide (lastExtentsProd stage (j + 1) ≤ p.maxVectorizeSize))).length

/-- A root compute stage whose only iterator is spatial, unannotated, of
extent 2, but listed in the stage's `always_unroll` attribute. -/
def cexVecStage : Stage :=
  { stageW with attrAlwaysUnroll := some ["i0"] }

/-- State around `cexVecStage`. -/
def cexVecState : State :=
  { stages := [cexVecStage], transformSteps := [], attachMap := ⟨[], []⟩, concrete := false }

/-- C9 (counterexample): on `cexVecState` the claim's walk counts one
fusible iterator — so the claim mandates vectorizing the innermost
iterator — but the rule's walk stops at the `always_unroll` name and the
stage is left untouched: no fuse, no vectorize annotation, no step. -/
theorem c9_vectorize_counterexample :
    claimNumFusible paramsW cexVecStage = 1 ∧
    vecWalkGo paramsW cexVecState 0 cexVecStage ["i0"]
      cexVecStage.iters.length 0 1 = some 0 ∧
    vectorizeStage paramsW cexVecState ⟨[]⟩ 0 = some (cexVecState, ⟨[]⟩) ∧
    (cexVecState.stageAt 0).iters.getD 0 default = iterW ∧
    iterW.kind = IterKind.spatial ∧ iterW.annot = IterAnnot.none ∧
    cexVecState.transformSteps = [] := by
  refine ⟨by decide, by decide, by decide, by decide, rfl, rfl, rfl⟩

/-- The full fusibility condition the source walk enforces at innermost
offset `j`: no attached stages at the position, a spatial unannotated
iterator not listed in `always_unroll`, at most the innermost iterator of a
tiled stage, a known extent, and the cumulative extent within the limit. -/
def fusibleChecks (p : Params) (s : State) (sid : Nat) (stage : Stage)
    (unrollSet : List String) (j : Nat) : Bool :=
  (s.attachMap.attachedAt sid (stage.iters.length - 1 - j)).isEmpty &&
    ((stage.iters.getD (stage.iters.length - 1 - j) default).kind == IterKind.spatial &&
     (stage.iters.getD (stage.iters.length - 1 - j) default).annot == IterAnnot.none &&
     !(unrollSet.contains (stage.iters.getD (stage.iters.length - 1 - j) default).name) &&
     (!(isTiled stage) || j == 0) &&
     (stage.iters.getD (stage.iters.length - 1 - j) default).extent.isSome &&
     decide (lastExtentsProd stage (j + 1) ≤ p.maxVectorizeSize))

/-- Unfolding of the innermost-extent product. -/
theorem lastExtentsProd_succ (stage : Stage) (k : Nat) (h : k < stage.iters.length) :
    lastExtentsProd stage (k + 1) =
      (stage.iters.getD (stage.iters.length - 1 - k) default).extent.getD 0 *
        lastExtentsProd stage k := by
  unfold lastExtentsProd
  have hidx : stage.iters.length - (k + 1) < stage.iters.length := by omega
  have hdrop := List.drop_eq_getElem_cons hidx
  have hstep : stage.iters.length - (k + 1) + 1 = stage.iters.length - k := by omega
  rw [hdrop, hstep, List.map_cons, List.prod_cons]
  have hgetD : stage.iters.getD (stage.iters.length - 1 - k) default =
      stage.iters[stage.iters.length - (k + 1)] := by
    have : stage.iters.length - 1 - k = stage.iters.length - (k + 1) := by omega
    rw [this]
    exact List.getD_eq_getElem stage.iters default hidx
  rw [hgetD]

/-- The innermost-extent product of zero iterators. -/
theorem lastExtentsProd_zero (stage : Stage) : lastExtentsProd stage 0 = 1 := by
  simp [lastExtentsProd]

/-- A true stop condition on kinds and names falsifies the spatial/
unannotated/not-always-unroll conjunction. -/
theorem orCond_checks_false {it : Iterator} {unrollSet : List String}
    (hkind : (it.kind == IterKind.reduction || !(it.annot == IterAnnot.none) ||
      unrollSet.contains it.name) = true) :
    (it.kind == IterKind.spatial && it.annot == IterAnnot.none &&
      !(unrollSet.contains it.name)) = false := by
  cases hq : it.kind <;> cases hr : it.annot <;> cases hc : unrollSet.contains it.name <;>
    simp_all

/-- A false stop condition on kinds and names yields its components. -/
theorem orCond_false_components {it : Iterator} {unrollSet : List String}
    (h : (it.kind == IterKind.reduction || !(it.annot == IterAnnot.none) ||
      unrollSet.contains it.name) = false) :
    it.kind = IterKind.spatial ∧ it.annot = IterAnnot.none ∧
      unrollSet.contains it.name = false := by
  cases hq : it.kind <;> cases hr : it.annot <;> cases hc : unrollSet.contains it.name <;>
    simp_all

/-- Soundness and maximality of the source walk: a successful walk result
marks a maximal prefix of innermost offsets satisfying the full fusibility
condition. -/
theorem vecWalkGo_sound (p : Params) (s : State) (sid : Nat) (stage : Stage)
    (unrollSet : List String) :
    ∀ (remaining nf res : Nat),
      nf + remaining = stage.iters.length →
      vecWalkGo p s sid stage unrollSet remaining nf (lastExtentsProd stage nf) = some res →
      nf ≤ res ∧ res ≤ stage.iters.length ∧
      (∀ j, nf ≤ j → j < res → fusibleChecks p s sid stage unrollSet j = true) ∧
      (res < stage.iters.length → fusibleChecks p s sid stage unrollSet res = false) := by
  intro remaining
  induction remaining with
  | zero =>
    intro nf res hsum h
    simp only [vecWalkGo, Option.some.injEq] at h
    subst h
    exact ⟨Nat.le_refl _, by omega, fun j hj1 hj2 => by omega, fun hlt => by omega⟩
  | succ remaining ih =>
    intro nf res hsum h
    have hnf : nf < stage.iters.length := by omega
    simp only [vecWalkGo] at h
    rw [if_pos hnf] at h
    split at h
    case isTrue hatt =>
      simp only [Option.some.injEq] at h
      subst h
      refine ⟨Nat.le_refl _, by omega, fun j hj1 hj2 => by omega, fun _ => ?_⟩
      simp only [Bool.not_eq_eq_eq_not, Bool.not_true] at hatt
      simp [fusibleChecks, hatt]
    case isFalse hatt =>
      have hattT : (s.attachMap.attachedAt sid (stage.iters.length - 1 - nf)).isEmpty = true := by
        by_contra hcon
        exact hatt (by simp [Bool.eq_false_iff.mpr hcon])
      split at h
      case isTrue hkind =>
        simp only [Option.some.injEq] at h
        subst h
        refine ⟨Nat.le_refl _, by omega, fun j hj1 hj2 => by omega, fun _ => ?_⟩
        have hf := orCond_checks_false hkind
        unfold fusibleChecks
        rw [hf]
        simp
      case isFalse hkind =>
        obtain ⟨hspatial, hannot, hunroll⟩ :=
          orCond_false_components (Bool.eq_false_iff.mpr hkind)
        split at h
        case isTrue htiled =>
          simp only [Option.some.injEq] at h
          subst h
          refine ⟨Nat.le_refl _, by omega, fun j hj1 hj2 => by omega, fun _ => ?_⟩
          have hcomp : isTiled stage = true ∧ (nf == 0) = false := by
            cases hq1 : isTiled stage <;> cases hq2 : (nf == 0) <;> simp_all
          simp [fusibleChecks, hcomp.1, hcomp.2]
        case isFalse htiled =>
          have htOk : (!(isTiled stage) || nf == 0) = true := by
            cases hq1 : isTiled stage
            · simp
            · cases hq2 : (nf == 0)
              · exact absurd (by simp [hq1, hq2]) htiled
              · simp [hq2]
          split at h
          next hext => exact absurd h (by simp)
          next e hext =>
            have hsome : (stage.iters.getD (stage.iters.length - 1 - nf) default).extent =
                some e := hext
            have hprodsucc : lastExtentsProd stage (nf + 1) =
                lastExtentsProd stage nf * e := by
              rw [lastExtentsProd_succ stage nf hnf, hsome]
              simp [Nat.mul_comm]
            split at h
            next hcum =>
              simp only [Option.some.injEq] at h
              subst h
              refine ⟨Nat.le_refl _, by omega, fun j hj1 hj2 => by omega, fun _ => ?_⟩
              have hcf : decide (lastExtentsProd stage (nf + 1) ≤ p.maxVectorizeSize) = false := by
                rw [hprodsucc]
                simpa using hcum
              simp [fusibleChecks, hcf]
            next hcum =>
              rw [← hprodsucc] at h
              obtain ⟨ih1, ih2, ih3, ih4⟩ := ih (nf + 1) res (by omega) h
              refine ⟨by omega, ih2, ?_, ih4⟩
              intro j hj1 hj2
              rcases Nat.eq_or_lt_of_le hj1 with hj | hj
              · subst hj
                have hcumOk : decide (lastExtentsProd stage (nf + 1) ≤ p.maxVectorizeSize) = true := by
                  rw [hprodsucc]
                  simpa using Nat.le_of_not_lt hcum
                simp only [List.getD_eq_getElem?_getD] at hspatial hannot hunroll hsome
                simp [fusibleChecks, hattT, hcumOk, htOk]
                refine ⟨⟨⟨?_, ?_⟩, ?_⟩, ?_⟩
                · exact hspatial
                · exact hannot
                · simpa using hunroll
                · simp [hsome]
              · exact ih3 j hj hj2

/-- The prefix length the rule chooses from a fusible count: a uniform
random value in `[1, nf0 - 1]` when more than one iterator is fusible, the
count itself otherwise. -/
def chosenFusible (rng : Rng) (nf0 : Nat) : Nat × Rng :=
  if 1 < nf0 then
    let rr := rng.next
    (1 + rr.1 % (nf0 - 1), rr.2)
  else (nf0, rng)

/-- Reduction of `vectorizeStage` on a non-skipped stage once the walk has
been resolved. -/
theorem vectorizeStage_eq (p : Params) (s : State) (rng : Rng) (sid : Nat) (nf0 : Nat)
    (hskip1 : ((s.stageAt sid).computeAt == ComputeAtKind.inlined ||
      (s.stageAt sid).opType == StageKind.placeholder) = false)
    (hskip2 : hasAnnotatedIter (s.stageAt sid) IterAnnot.tensorize = false)
    (hwalk : vecWalkGo p s sid (s.stageAt sid) ((s.stageAt sid).attrAlwaysUnroll.getD [])
      (s.stageAt sid).iters.length 0 1 = some nf0) :
    vectorizeStage p s rng sid =
      (if (chosenFusible rng nf0).1 == 1 then
        match (s.stageAt sid).iters.getLast? with
        | Option.none => Option.none
        | some lastIt =>
          match s.vectorize sid lastIt with
          | Option.none => Option.none
          | some s2 => some (s2, (chosenFusible rng nf0).2)
      else if 1 < (chosenFusible rng nf0).1 then
        match s.fuse sid ((s.stageAt sid).iters.drop
            ((s.stageAt sid).iters.length - (chosenFusible rng nf0).1)) with
        | Option.none => Option.none
        | some (s2, fusedIt) =>
          match s2.vectorize sid fusedIt with
          | Option.none => Option.none
          | some s3 => some (s3, (chosenFusible rng nf0).2)
      else some (s, (chosenFusible rng nf0).2)) := by
  unfold vectorizeStage chosenFusible
  dsimp only
  rw [hskip1, hskip2, hwalk]
  rfl

/-- C9 (amended): on a non-placeholder, non-inlined, non-tensorized stage
the walk admits innermost offset `j` exactly while no other stage is
attached at the position, the iterator is spatial, unannotated, not listed
in `always_unroll`, at most the innermost of a tiled stage, of known
extent, and the cumulative extent stays within `max_vectorize_size`; its
result `nf0` is a maximal such prefix. When `nf0 > 1` a uniform random
prefix length in `[1, nf0 - 1]` is chosen (consuming one random draw),
otherwise the prefix is `nf0` itself; a prefix of 0 leaves the state
unchanged, 1 vectorizes the last iterator without fusing, and more than 1
fuses that many innermost iterators and vectorizes the fused iterator. -/
theorem c9_vectorize_amended (p : Params) (s : State) (rng : Rng) (sid : Nat)
    (stage : Stage) (unrollSet : List String) (nf0 : Nat)
    (hstage : stage = s.stageAt sid)
    (hunroll : unrollSet = stage.attrAlwaysUnroll.getD [])
    (hskip1 : (stage.computeAt == ComputeAtKind.inlined ||
      stage.opType == StageKind.placeholder) = false)
    (hskip2 : hasAnnotatedIter stage IterAnnot.tensorize = false)
    (hwalk : vecWalkGo p s sid stage unrollSet stage.iters.length 0 1 = some nf0) :
    (nf0 ≤ stage.iters.length ∧
      (∀ j, j < nf0 → fusibleChecks p s sid stage unrollSet j = true) ∧
      (nf0 < stage.iters.length → fusibleChecks p s sid stage unrollSet nf0 = false)) ∧
    (1 < nf0 → 1 ≤ (chosenFusible rng nf0).1 ∧ (chosenFusible rng nf0).1 ≤ nf0 - 1 ∧
      (chosenFusible rng nf0).2 = rng.next.2) ∧
    (nf0 ≤ 1 → chosenFusible rng nf0 = (nf0, rng)) ∧
    ((chosenFusible rng nf0).1 = 0 →
      vectorizeStage p s rng sid = some (s, (chosenFusible rng nf0).2)) ∧
    ((chosenFusible rng nf0).1 = 1 →
      vectorizeStage p s rng sid =
        match stage.iters.getLast? with
        | Option.none => Option.none
        | some lastIt =>
          match s.vectorize sid lastIt with
          | Option.none => Option.none
          | some s2 => some (s2, (chosenFusible rng nf0).2)) ∧
    (1 < (chosenFusible rng nf0).1 →
      vectorizeStage p s rng sid =
        match s.fuse sid (stage.iters.drop
            (stage.iters.length - (chosenFusible rng nf0).1)) with
        | Option.none => Option.none
        | some (s2, fusedIt) =>
          match s2.vectorize sid fusedIt with
          | Option.none => Option.none
          | some s3 => some (s3, (chosenFusible rng nf0).2)) := by
  subst hstage
  subst hunroll
  have hv := vectorizeStage_eq p s rng sid nf0 hskip1 hskip2 hwalk
  refine ⟨?_, ?_, ?_, ?_, ?_, ?_⟩
  · obtain ⟨h1, h2, h3, h4⟩ := vecWalkGo_sound p s sid (s.stageAt sid)
      ((s.stageAt sid).attrAlwaysUnroll.getD []) (s.stageAt sid).iters.length 0 nf0
      (by omega) (by rw [lastExtentsProd_zero]; exact hwalk)
    exact ⟨h2, fun j hj => h3 j (Nat.zero_le _) hj, h4⟩
  · intro h1
    have hpick : chosenFusible rng nf0 = (1 + rng.next.1 % (nf0 - 1), rng.next.2) := by
      unfold chosenFusible
      rw [if_pos h1]
    have hmod : rng.next.1 % (nf0 - 1) < nf0 - 1 := Nat.mod_lt _ (by omega)
    rw [hpick]
    dsimp only
    exact ⟨by omega, by omega, rfl⟩
  · intro h1
    unfold chosenFusible
    rw [if_neg (by omega)]
  · intro h0
    rw [hv, h0]
    rfl
  · intro h1
    rw [hv, h1]
    rfl
  · intro h2
    have hne : ¬(((chosenFusible rng nf0).1 == 1) = true) := by
      simp only [beq_iff_eq]
      omega
    rw [hv, if_neg hne, if_pos h2]

/-- C9 witness: the amended theorem at `stateW`, whose single spatial
extent-4 iterator makes the walk return 1 and the rule vectorize the last
iterator without fusing. -/
theorem c9_witness :
    vecWalkGo paramsW stateW 0 stageW [] stageW.iters.length 0 1 = some 1 ∧
    ((chosenFusible ⟨[]⟩ 1).1 = 1 →
      vectorizeStage paramsW stateW ⟨[]⟩ 0 =
        match stageW.iters.getLast? with
        | Option.none => Option.none
        | some lastIt =>
          match stateW.vectorize 0 lastIt with
          | Option.none => Option.none
          | some s2 => some (s2, (chosenFusible ⟨[]⟩ 1).2)) :=
  ⟨by decide,
   (c9_vectorize_amended paramsW stateW ⟨[]⟩ 0 stageW [] 1 rfl rfl (by decide)
     (by decide) (by decide)).2.2.2.2.1⟩

end AS
